import Mathlib

/-!
Verification of the foodtopia daily-aggregate consistency engine.

The numeric domain of the source (JavaScript numbers) is embedded as `ℚ`;
`Option ℚ` is used where a value may be `NaN`/`undefined` and that
distinction is observable.  Dates are embedded as abstract day keys `ℕ`
(the source always compares day buckets for equality after truncating a
timestamp to calendar-day granularity).
-/

namespace Foodtopia

/-- JavaScript `Math.floor` on the rational embedding.  Defined through the
computable `Rat.floor` so that concrete runs of the model reduce inside the
kernel. -/
def jsFloor (q : ℚ) : ℤ := q.floor

/-- `jsFloor` agrees with the mathematical floor. -/
theorem jsFloor_eq (q : ℚ) : jsFloor q = ⌊q⌋ := by
  rw [jsFloor, Rat.floor_def', ← Rat.floor_def]

/-- JavaScript `Math.round x`: round half toward positive infinity,
i.e. `⌊x + 1/2⌋`. -/
def jsRound (q : ℚ) : ℤ := jsFloor (q + 1/2)

/-- JavaScript `x % 1` for a nonnegative number: the fractional part
`x - Math.floor x`. -/
def jsMod1 (q : ℚ) : ℚ := q - jsFloor q

/-- DurationCodec compose, from the milliseconds input `onChange` handler in
`client/src/components/workout/add-workout-dialog.tsx`:
`newValue = minutes + (seconds / 60) + (ms / 60000)`. -/
def composeDuration (minutes seconds ms : ℕ) : ℚ :=
  (minutes : ℚ) + (seconds : ℚ) / 60 + (ms : ℚ) / 60000

/-- DurationCodec decompose, from the three duration input displays in
`add-workout-dialog.tsx`: minutes `Math.floor(value)`, seconds
`Math.round((value % 1) * 60)`, milliseconds
`Math.round(((value % 1) * 60 % 1) * 1000)`. -/
def decomposeDuration (value : ℚ) : ℤ × ℤ × ℤ :=
  (jsFloor value, jsRound (jsMod1 value * 60), jsRound (jsMod1 (jsMod1 value * 60) * 1000))

/-- `C4` counterexample: composing 0 min, 0 s, 999 ms and decomposing does not
recover the triple: the seconds component comes back as `round(0.999) = 1`. -/
theorem duration_roundtrip_fails_at_999ms :
    decomposeDuration (composeDuration 0 0 999) ≠ ((0 : ℤ), (0 : ℤ), (999 : ℤ)) := by
  simp only [decomposeDuration, composeDuration, jsRound, jsMod1, jsFloor_eq, Prod.ext_iff]
  norm_num

/-- Helper: value of `jsRound` at a point known to lie in `[z, z + 1/2)`. -/
theorem jsRound_eq_of_bounds (q : ℚ) (z : ℤ) (h1 : (z : ℚ) ≤ q + 1/2)
    (h2 : q + 1/2 < (z : ℚ) + 1) : jsRound q = z := by
  rw [jsRound, jsFloor_eq, Int.floor_eq_iff]
  exact ⟨h1, h2⟩

/-- `C4` (amended): for `s ≤ 59` and `ms ≤ 499` the decomposition recovers the
components exactly; the original range `ms ≤ 999` fails because the seconds
display rounds `s + ms/1000` half-up, incrementing the seconds once
`ms ≥ 500`. -/
theorem duration_roundtrip_exact_below_half_second (m s ms : ℕ)
    (hs : s ≤ 59) (hms : ms ≤ 499) :
    decomposeDuration (composeDuration m s ms) = ((m : ℤ), (s : ℤ), (ms : ℤ)) := by
  have hsQ : (s : ℚ) ≤ 59 := by exact_mod_cast hs
  have hmsQ : (ms : ℚ) ≤ 499 := by exact_mod_cast hms
  have hs0 : (0 : ℚ) ≤ (s : ℚ) := Nat.cast_nonneg s
  have hms0 : (0 : ℚ) ≤ (ms : ℚ) := Nat.cast_nonneg ms
  have hfloor : jsFloor (composeDuration m s ms) = (m : ℤ) := by
    rw [jsFloor_eq, Int.floor_eq_iff]
    refine ⟨?_, ?_⟩
    · rw [composeDuration]; push_cast; linarith
    · rw [composeDuration]; push_cast; linarith
  have ht : jsMod1 (composeDuration m s ms) * 60 = (s : ℚ) + (ms : ℚ) / 1000 := by
    rw [jsMod1, hfloor, composeDuration]
    push_cast
    ring
  have hsec : jsRound (jsMod1 (composeDuration m s ms) * 60) = (s : ℤ) := by
    rw [ht]
    refine jsRound_eq_of_bounds _ _ ?_ ?_
    · push_cast; linarith
    · push_cast; linarith
  have htfloor : jsFloor ((s : ℚ) + (ms : ℚ) / 1000) = (s : ℤ) := by
    rw [jsFloor_eq, Int.floor_eq_iff]
    refine ⟨?_, ?_⟩
    · push_cast; linarith
    · push_cast; linarith
  have hms1 : jsMod1 ((s : ℚ) + (ms : ℚ) / 1000) = (ms : ℚ) / 1000 := by
    rw [jsMod1, htfloor]
    push_cast
    ring
  have hmsv : jsRound (jsMod1 (jsMod1 (composeDuration m s ms) * 60) * 1000) = (ms : ℤ) := by
    rw [ht, hms1]
    have h1000 : (ms : ℚ) / 1000 * 1000 = (ms : ℚ) := by ring
    rw [h1000]
    refine jsRound_eq_of_bounds _ _ ?_ ?_
    · push_cast; linarith
    · push_cast; linarith
  rw [decomposeDuration, hfloor, hsec, hmsv]

/-- `C4` witness: the amended round-trip evaluated at 12 min 34 s 499 ms. -/
theorem duration_roundtrip_witness :
    decomposeDuration (composeDuration 12 34 499) = ((12 : ℤ), (34 : ℤ), (499 : ℤ)) :=
  duration_roundtrip_exact_below_half_second 12 34 499 (by norm_num) (by norm_num)

/-! ## Data model (`shared/schema.ts`)

Records are embedded with the fields the claims observe; `day` is the
calendar-day bucket of the record's timestamp.  An `Option ℚ` field models a
JavaScript property that may be missing (`undefined`) or `NaN`. -/

/-- JavaScript `x || 0` on a possibly missing/`NaN` number. -/
def jsOrZero (o : Option ℚ) : ℚ := o.getD 0

/-- One meal line item: `{ name, calories, protein?, carbs?, fat?, sugar? }`
(the name is not observed by any aggregate routine and is omitted). -/
structure MealItem where
  calories : ℚ
  protein : Option ℚ
  carbs : Option ℚ
  fat : Option ℚ
  sugar : Option ℚ

/-- A stored Meal row. -/
structure Meal where
  id : ℕ
  userId : ℕ
  day : ℕ
  totalCalories : ℚ
  totalProtein : ℚ
  items : List MealItem

/-- The meal payload before an id is assigned (`InsertMeal`). -/
structure MealInsert where
  userId : ℕ
  day : ℕ
  totalCalories : ℚ
  totalProtein : ℚ
  items : List MealItem

/-- Attach a backend-assigned id to an insert payload. -/
def MealInsert.withId (m : MealInsert) (id : ℕ) : Meal :=
  ⟨id, m.userId, m.day, m.totalCalories, m.totalProtein, m.items⟩

/-- The workout `details` bag; only `rowingMeters` is observed by the
aggregate routines. -/
structure WorkoutDetails where
  rowingMeters : Option ℚ

/-- A stored Workout row. -/
structure Workout where
  id : ℕ
  userId : ℕ
  day : ℕ
  durationMinutes : ℚ
  caloriesBurned : ℚ
  type : String
  details : WorkoutDetails

/-- The workout payload before an id is assigned (`InsertWorkout`). -/
structure WorkoutInsert where
  userId : ℕ
  day : ℕ
  durationMinutes : ℚ
  caloriesBurned : ℚ
  type : String
  details : WorkoutDetails

/-- Attach a backend-assigned id to a workout payload. -/
def WorkoutInsert.withId (w : WorkoutInsert) (id : ℕ) : Workout :=
  ⟨id, w.userId, w.day, w.durationMinutes, w.caloriesBurned, w.type, w.details⟩

/-- A DailyProgress row.  `rowingMeters` is an `Option` because the in-memory
backend's meal path creates rows without that property, and the schema column
is nullable; `none` also absorbs a `NaN` produced by `undefined + x`. -/
structure ProgressRow where
  id : ℕ
  userId : ℕ
  day : ℕ
  caloriesConsumed : ℚ
  proteinConsumed : ℚ
  carbsConsumed : ℚ
  fatConsumed : ℚ
  sugarConsumed : ℚ
  workoutMinutes : ℚ
  caloriesBurned : ℚ
  rowingMeters : Option ℚ

/-! ## List helpers shared by the backend embeddings -/

/-- First meal with the given id (`Map.get` / `Array.find`). -/
def findMeal : List Meal → ℕ → Option Meal
  | [], _ => none
  | m :: rest, id => if m.id = id then some m else findMeal rest id

/-- First workout with the given id. -/
def findWorkout : List Workout → ℕ → Option Workout
  | [], _ => none
  | w :: rest, id => if w.id = id then some w else findWorkout rest id

/-- Remove the first meal with the given id (`Map.delete` / `splice`). -/
def removeMeal : List Meal → ℕ → List Meal
  | [], _ => []
  | m :: rest, id => if m.id = id then rest else m :: removeMeal rest id

/-- Remove the first workout with the given id. -/
def removeWorkout : List Workout → ℕ → List Workout
  | [], _ => []
  | w :: rest, id => if w.id = id then rest else w :: removeWorkout rest id

/-- First DailyProgress row for the `(userId, day)` bucket. -/
def findRow : List ProgressRow → ℕ → ℕ → Option ProgressRow
  | [], _, _ => none
  | r :: rest, u, d => if r.userId = u ∧ r.day = d then some r else findRow rest u d

/-- Store a row under the `(userId, day)` bucket: replace the first existing
entry for that bucket, else append (`Map.set` on the key `userId-date`). -/
def setRow : List ProgressRow → ℕ → ℕ → ProgressRow → List ProgressRow
  | [], _, _, r => [r]
  | r0 :: rest, u, d, r =>
    if r0.userId = u ∧ r0.day = d then r :: rest else r0 :: setRow rest u d r

/-- Sum of a meal attribute over the stored meals of a `(userId, day)`
bucket (the day filter of `getMealsByDate`). -/
def mealsSum (f : Meal → ℚ) : List Meal → ℕ → ℕ → ℚ
  | [], _, _ => 0
  | m :: rest, u, d =>
    (if m.userId = u ∧ m.day = d then f m else 0) + mealsSum f rest u d

/-- Sum of a workout attribute over the stored workouts of a bucket. -/
def workoutsSum (f : Workout → ℚ) : List Workout → ℕ → ℕ → ℚ
  | [], _, _ => 0
  | w :: rest, u, d =>
    (if w.userId = u ∧ w.day = d then f w else 0) + workoutsSum f rest u d

/-- Sum of `item.carbs || 0` over a meal's line items, as in
`DatabaseStorage`'s recompute loops. -/
def itemsCarbs : List MealItem → ℚ
  | [] => 0
  | i :: rest => jsOrZero i.carbs + itemsCarbs rest

/-- Sum of `item.fat || 0` over a meal's line items. -/
def itemsFat : List MealItem → ℚ
  | [] => 0
  | i :: rest => jsOrZero i.fat + itemsFat rest

/-- Sum of `item.sugar || 0` over a meal's line items. -/
def itemsSugar : List MealItem → ℚ
  | [] => 0
  | i :: rest => jsOrZero i.sugar + itemsSugar rest

/-- The rowing-meter contribution of one workout, as extracted by
`updateDailyProgressAfterWorkout`: `type === 'rowing'` and
`details.rowingMeters || 0`. -/
def rowingContribution (w : Workout) : ℚ :=
  if w.type = "rowing" then jsOrZero w.details.rowingMeters else 0

/-! ## In-memory backend (`MemStorage`, `src/unnamed/part_000`) -/

/-- The mutable state of a `MemStorage` instance.  The sample-data seeding of
the constructor is not replayed here; theorems quantify over states. -/
structure MemState where
  meals : List Meal
  workouts : List Workout
  progress : List ProgressRow
  mealIdCounter : ℕ
  workoutIdCounter : ℕ
  progressIdCounter : ℕ

/-- A `MemStorage` with no records. -/
def MemState.empty : MemState := ⟨[], [], [], 1, 1, 1⟩

/-- `MemStorage.getDailyProgress`. -/
def MemState.getDailyProgress (s : MemState) (u d : ℕ) : Option ProgressRow :=
  findRow s.progress u d

/-- `MemStorage.updateDailyProgressAfterMeal`: add the meal's totals to the
existing bucket row, or create a fresh row; the fresh row literal carries no
`rowingMeters` property. -/
def MemState.updateDailyProgressAfterMeal (s : MemState) (meal : Meal) : MemState :=
  match findRow s.progress meal.userId meal.day with
  | some dp =>
    let dp1 := { dp with
      caloriesConsumed := dp.caloriesConsumed + meal.totalCalories
      proteinConsumed := dp.proteinConsumed + meal.totalProtein }
    { s with progress := setRow s.progress meal.userId meal.day dp1 }
  | none =>
    let fresh : ProgressRow :=
      { id := s.progressIdCounter, userId := meal.userId, day := meal.day
        caloriesConsumed := meal.totalCalories
        proteinConsumed := meal.totalProtein
        carbsConsumed := 0, fatConsumed := 0, sugarConsumed := 0
        workoutMinutes := 0, caloriesBurned := 0, rowingMeters := none }
    { s with
        progress := setRow s.progress meal.userId meal.day fresh
        progressIdCounter := s.progressIdCounter + 1 }

/-- `MemStorage.createMeal`: assign the counter id, store, then update the
day's aggregate. -/
def MemState.createMeal (s : MemState) (im : MealInsert) : Meal × MemState :=
  let meal := im.withId s.mealIdCounter
  let s1 := { s with meals := s.meals ++ [meal], mealIdCounter := s.mealIdCounter + 1 }
  (meal, s1.updateDailyProgressAfterMeal meal)

/-- `MemStorage.deleteMeal`: missing id returns `false` untouched; otherwise
subtract the meal's totals from the bucket row, clamping at zero, and remove
the meal. -/
def MemState.deleteMeal (s : MemState) (id : ℕ) : Bool × MemState :=
  match findMeal s.meals id with
  | none => (false, s)
  | some meal =>
    let s1 :=
      match findRow s.progress meal.userId meal.day with
      | some dp =>
        let dp1 := { dp with
          caloriesConsumed := max 0 (dp.caloriesConsumed - meal.totalCalories)
          proteinConsumed := max 0 (dp.proteinConsumed - meal.totalProtein) }
        { s with progress := setRow s.progress meal.userId meal.day dp1 }
      | none => s
    (true, { s1 with meals := removeMeal s1.meals id })

/-- `MemStorage.updateDailyProgressAfterWorkout`: add duration, calories and
(for rowing workouts) `details.rowingMeters || 0`.  On an existing row the
source computes `dailyProgress.rowingMeters + rowingMeters`, which is `NaN`
when the row has no such property; `Option.map` keeps that absorbing
behaviour. -/
def MemState.updateDailyProgressAfterWorkout (s : MemState) (w : Workout) : MemState :=
  let rowingMeters := rowingContribution w
  match findRow s.progress w.userId w.day with
  | some dp =>
    let dp1 := { dp with
      workoutMinutes := dp.workoutMinutes + w.durationMinutes
      caloriesBurned := dp.caloriesBurned + w.caloriesBurned
      rowingMeters := dp.rowingMeters.map (· + rowingMeters) }
    { s with progress := setRow s.progress w.userId w.day dp1 }
  | none =>
    let fresh : ProgressRow :=
      { id := s.progressIdCounter, userId := w.userId, day := w.day
        caloriesConsumed := 0, proteinConsumed := 0, carbsConsumed := 0
        fatConsumed := 0, sugarConsumed := 0
        workoutMinutes := w.durationMinutes
        caloriesBurned := w.caloriesBurned
        rowingMeters := some rowingMeters }
    { s with
        progress := setRow s.progress w.userId w.day fresh
        progressIdCounter := s.progressIdCounter + 1 }

/-- `MemStorage.createWorkout`. -/
def MemState.createWorkout (s : MemState) (iw : WorkoutInsert) : Workout × MemState :=
  let w := iw.withId s.workoutIdCounter
  let s1 := { s with workouts := s.workouts ++ [w], workoutIdCounter := s.workoutIdCounter + 1 }
  (w, s1.updateDailyProgressAfterWorkout w)

/-- `MemStorage.deleteWorkout`: subtract only `workoutMinutes` and
`caloriesBurned` (clamped at zero) from the bucket row; `rowingMeters` is not
touched. -/
def MemState.deleteWorkout (s : MemState) (id : ℕ) : Bool × MemState :=
  match findWorkout s.workouts id with
  | none => (false, s)
  | some w =>
    let s1 :=
      match findRow s.progress w.userId w.day with
      | some dp =>
        let dp1 := { dp with
          workoutMinutes := max 0 (dp.workoutMinutes - w.durationMinutes)
          caloriesBurned := max 0 (dp.caloriesBurned - w.caloriesBurned) }
        { s with progress := setRow s.progress w.userId w.day dp1 }
      | none => s
    (true, { s1 with workouts := removeWorkout s1.workouts id })

/-- The rowing meters recorded for a day, viewed as a displayed quantity:
`some 0` when no row exists, the row's (possibly absent) property otherwise. -/
def dayRowingMeters (s : MemState) (u d : ℕ) : Option ℚ :=
  match findRow s.progress u d with
  | none => some 0
  | some r => r.rowingMeters

/-! ## Lemmas about the bucket map -/

/-- After storing a row under its own bucket, lookup of that bucket finds it. -/
theorem findRow_setRow_self (l : List ProgressRow) (u d : ℕ) (r : ProgressRow)
    (hu : r.userId = u) (hd : r.day = d) :
    findRow (setRow l u d r) u d = some r := by
  induction l with
  | nil => simp [setRow, findRow, hu, hd]
  | cons r0 rest ih =>
    by_cases h : r0.userId = u ∧ r0.day = d
    · simp [setRow, findRow, h, hu, hd]
    · simp [setRow, findRow, h, ih]

/-- A row returned by `findRow` carries the queried bucket key. -/
theorem findRow_eq_bucket (l : List ProgressRow) (u d : ℕ) (r : ProgressRow)
    (h : findRow l u d = some r) : r.userId = u ∧ r.day = d := by
  induction l with
  | nil => exact absurd h (by simp [findRow])
  | cons r0 rest ih =>
    by_cases h0 : r0.userId = u ∧ r0.day = d
    · rw [findRow, if_pos h0] at h
      obtain rfl : r0 = r := by simpa using h
      exact h0
    · rw [findRow, if_neg h0] at h
      exact ih h

/-- Lookup of a different bucket is unaffected by `setRow`. -/
theorem findRow_setRow_other (l : List ProgressRow) (u d u' d' : ℕ) (r : ProgressRow)
    (hu : r.userId = u) (hd : r.day = d) (hne : ¬(u = u' ∧ d = d')) :
    findRow (setRow l u d r) u' d' = findRow l u' d' := by
  have hne' : ¬(u' = u ∧ d' = d) := fun hc => hne ⟨hc.1.symm, hc.2.symm⟩
  induction l with
  | nil => simp [setRow, findRow, hu, hd, hne]
  | cons r0 rest ih =>
    by_cases h : r0.userId = u ∧ r0.day = d
    · simp [setRow, findRow, h.1, h.2, hu, hd, hne]
    · by_cases h' : r0.userId = u' ∧ r0.day = d'
      · simp [setRow, findRow, h, h'.1, h'.2, hne, hne']
      · simp [setRow, findRow, h, h', ih]

/-- `MemStorage.updateDailyProgressAfterWorkout` adds the workout's rowing
contribution to the day's displayed rowing meters. -/
theorem dayRowingMeters_update_after_workout (s : MemState) (w : Workout) (v : ℚ)
    (hv : dayRowingMeters s w.userId w.day = some v) :
    dayRowingMeters (s.updateDailyProgressAfterWorkout w) w.userId w.day =
      some (v + rowingContribution w) := by
  cases hrow : findRow s.progress w.userId w.day with
  | none =>
    rw [dayRowingMeters, hrow] at hv
    have hv0 : (0 : ℚ) = v := by simpa using hv
    simp only [MemState.updateDailyProgressAfterWorkout, hrow, dayRowingMeters]
    rw [findRow_setRow_self s.progress w.userId w.day _ rfl rfl]
    simp [← hv0]
  | some dp =>
    rw [dayRowingMeters, hrow] at hv
    simp only at hv
    obtain ⟨hbu, hbd⟩ := findRow_eq_bucket _ _ _ _ hrow
    simp only [MemState.updateDailyProgressAfterWorkout, hrow, dayRowingMeters]
    rw [findRow_setRow_self s.progress w.userId w.day]
    · simp [hv]
    · exact hbu
    · exact hbd

/-- `MemStorage.deleteWorkout` never changes the displayed rowing meters of
any day: the row update it performs touches only `workoutMinutes` and
`caloriesBurned`. -/
theorem dayRowingMeters_deleteWorkout (s : MemState) (id u d : ℕ) :
    dayRowingMeters (s.deleteWorkout id).2 u d = dayRowingMeters s u d := by
  cases hw : findWorkout s.workouts id with
  | none => simp only [MemState.deleteWorkout, hw]
  | some w =>
    cases hrow : findRow s.progress w.userId w.day with
    | none => simp only [MemState.deleteWorkout, hw, hrow, dayRowingMeters]
    | some dp =>
      obtain ⟨hbu, hbd⟩ := findRow_eq_bucket _ _ _ _ hrow
      simp only [MemState.deleteWorkout, hw, hrow, dayRowingMeters]
      by_cases hb : w.userId = u ∧ w.day = d
      · obtain ⟨hb1, hb2⟩ := hb
        subst hb1
        subst hb2
        rw [findRow_setRow_self s.progress w.userId w.day]
        · rw [hrow]
        · exact hbu
        · exact hbd
      · rw [findRow_setRow_other s.progress w.userId w.day u d]
        · exact hbu
        · exact hbd
        · exact hb

/-- `C10` counterexample: a rowing workout whose `details.rowingMeters` is
present but `0` is created and deleted; the day's rowing meters end up equal
to what they were before the create, not larger as the claim states. -/
theorem rowing_delete_zero_meters_not_larger :
    dayRowingMeters
      ((MemState.empty.createWorkout
          ⟨1, 0, 30, 200, "rowing", ⟨some 0⟩⟩).2.deleteWorkout 1).2 1 0 =
      dayRowingMeters MemState.empty 1 0 := by
  rfl

/-- `C10` (amended): `MemStorage.deleteWorkout` updates only `workoutMinutes`
and `caloriesBurned` and leaves `rowingMeters` unchanged, so creating a
rowing workout with `details.rowingMeters` present and positive and then
deleting it leaves the day's rowing meters strictly larger than before the
create. -/
theorem deleteWorkout_preserves_rowingMeters_frame (s : MemState)
    (iw : WorkoutInsert) (r v : ℚ) (hty : iw.type = "rowing")
    (hr : iw.details.rowingMeters = some r) (hpos : 0 < r)
    (hv : dayRowingMeters s iw.userId iw.day = some v) :
    dayRowingMeters
        (((s.createWorkout iw).2.deleteWorkout (s.createWorkout iw).1.id).2)
        iw.userId iw.day = some (v + r) ∧ v < v + r := by
  refine ⟨?_, by linarith⟩
  have hcontrib : rowingContribution (iw.withId s.workoutIdCounter) = r := by
    simp [rowingContribution, WorkoutInsert.withId, hty, hr, jsOrZero]
  have hcreate :
      dayRowingMeters (s.createWorkout iw).2 iw.userId iw.day = some (v + r) := by
    have hv1 : dayRowingMeters { s with workouts := s.workouts ++ [iw.withId s.workoutIdCounter], workoutIdCounter := s.workoutIdCounter + 1 } (iw.withId s.workoutIdCounter).userId (iw.withId s.workoutIdCounter).day = some v := hv
    have h2 := dayRowingMeters_update_after_workout _ _ _ hv1
    rw [hcontrib] at h2
    exact h2
  rw [dayRowingMeters_deleteWorkout]
  exact hcreate

/-- `C10` witness: the amended frame property at a concrete rowing workout of
500 m on an empty store. -/
theorem deleteWorkout_rowing_frame_witness :
    dayRowingMeters
        (((MemState.empty.createWorkout
            ⟨1, 0, 30, 200, "rowing", ⟨some 500⟩⟩).2.deleteWorkout
            (MemState.empty.createWorkout
              ⟨1, 0, 30, 200, "rowing", ⟨some 500⟩⟩).1.id).2) 1 0 =
      some ((0 : ℚ) + 500) ∧ (0 : ℚ) < 0 + 500 :=
  deleteWorkout_preserves_rowingMeters_frame MemState.empty
    ⟨1, 0, 30, 200, "rowing", ⟨some 500⟩⟩ 500 0 rfl rfl (by norm_num) rfl

/-! ## Daily-progress read route (`server/routes.ts`, GET /api/daily-progress) -/

/-- The JSON object shape the route responds with.  `Option` fields model
properties that can be missing from the serialized object. -/
structure ProgressResponse where
  userId : ℕ
  day : ℕ
  id : Option ℕ
  caloriesConsumed : ℚ
  proteinConsumed : ℚ
  carbsConsumed : ℚ
  fatConsumed : ℚ
  sugarConsumed : ℚ
  workoutMinutes : ℚ
  caloriesBurned : ℚ
  rowingMeters : Option ℚ

/-- `GET /api/daily-progress`: return the stored row when present, otherwise
the hard-coded zero object — whose literal lists only `userId`, `date` and the
seven consumption/burn counters, so the synthesized response carries no `id`
and no `rowingMeters` property. -/
def dailyProgressRoute (s : MemState) (u d : ℕ) : ProgressResponse :=
  match s.getDailyProgress u d with
  | some p =>
    { userId := p.userId, day := p.day, id := some p.id
      caloriesConsumed := p.caloriesConsumed, proteinConsumed := p.proteinConsumed
      carbsConsumed := p.carbsConsumed, fatConsumed := p.fatConsumed
      sugarConsumed := p.sugarConsumed, workoutMinutes := p.workoutMinutes
      caloriesBurned := p.caloriesBurned, rowingMeters := p.rowingMeters }
  | none =>
    { userId := u, day := d, id := none
      caloriesConsumed := 0, proteinConsumed := 0, carbsConsumed := 0
      fatConsumed := 0, sugarConsumed := 0, workoutMinutes := 0
      caloriesBurned := 0, rowingMeters := none }

/-- `C3` counterexample: for a user/day with no stored row the route's
synthesized response has no `rowingMeters` field at all — it is absent, not
zero. -/
theorem synthesized_progress_omits_rowingMeters :
    (dailyProgressRoute MemState.empty 1 0).rowingMeters ≠ some 0 := by
  decide

/-- `C3` (amended): for a user/day with no stored row, the route returns the
synthesized object whose seven numeric fields are zero and which is never an
absent response; its `rowingMeters` (and `id`) properties are absent rather
than zero. -/
theorem daily_progress_route_zero_synthesis (s : MemState) (u d : ℕ)
    (h : s.getDailyProgress u d = none) :
    dailyProgressRoute s u d =
      { userId := u, day := d, id := none
        caloriesConsumed := 0, proteinConsumed := 0, carbsConsumed := 0
        fatConsumed := 0, sugarConsumed := 0, workoutMinutes := 0
        caloriesBurned := 0, rowingMeters := none } := by
  simp only [dailyProgressRoute, h]

/-- `C3` witness: the synthesized zero response on the empty store. -/
theorem daily_progress_route_witness :
    dailyProgressRoute MemState.empty 1 0 =
      { userId := 1, day := 0, id := none
        caloriesConsumed := 0, proteinConsumed := 0, carbsConsumed := 0
        fatConsumed := 0, sugarConsumed := 0, workoutMinutes := 0
        caloriesBurned := 0, rowingMeters := none } :=
  daily_progress_route_zero_synthesis MemState.empty 1 0 rfl

/-! ## Client-local backend (`client/src/services/localStorage.ts`)

`createLocalStorageAPI` closes over one snapshot `data` of the persisted
store; the aggregate helpers (`updateDailyProgressAfterMeal` and friends)
independently `loadFromStorage()`, update the loaded copy and save it, after
which the operation's own `saveData()` writes the closure snapshot back.
`LSState` keeps both: `mem` is the closure snapshot, `persisted` the stored
contents.  The model covers the ordinary regime in which the store has been
persisted at least once, so `loadFromStorage` yields a fresh parse (no
aliasing with the closure snapshot). -/

/-- A DailyProgress record of the client-local store; every numeric field is
present (the creation literals set them all). -/
structure LSRow where
  id : ℕ
  userId : ℕ
  day : ℕ
  caloriesConsumed : ℚ
  proteinConsumed : ℚ
  caloriesBurned : ℚ
  carbsConsumed : ℚ
  fatConsumed : ℚ
  sugarConsumed : ℚ
  workoutMinutes : ℚ
  rowingMeters : ℚ

/-- The serialized store (`StorageData`, catalog collections omitted). -/
structure LSData where
  meals : List Meal
  workouts : List Workout
  dailyProgress : List LSRow

/-- Closure snapshot plus persisted contents. -/
structure LSState where
  mem : LSData
  persisted : LSData

/-- First row of the `(userId, day)` bucket (`find` with `isSameDay`). -/
def lsFindRow : List LSRow → ℕ → ℕ → Option LSRow
  | [], _, _ => none
  | r :: rest, u, d => if r.userId = u ∧ r.day = d then some r else lsFindRow rest u d

/-- Write back an updated row at the position of the entry with its id
(`findIndex(p => p.id === existingProgress.id)` followed by assignment). -/
def lsReplaceRow : List LSRow → LSRow → List LSRow
  | [], _ => []
  | r0 :: rest, r => if r0.id = r.id then r :: rest else r0 :: lsReplaceRow rest r

/-- Largest row id, base 0 (`Math.max(...ids, 0)`). -/
def maxRowId : List LSRow → ℕ
  | [] => 0
  | r :: rest => max r.id (maxRowId rest)

/-- Largest meal id, base 0. -/
def maxMealId : List Meal → ℕ
  | [] => 0
  | m :: rest => max m.id (maxMealId rest)

/-- Largest workout id, base 0. -/
def maxWorkoutId : List Workout → ℕ
  | [] => 0
  | w :: rest => max w.id (maxWorkoutId rest)

/-- `getNewId`: `collection.length > 0 ? Math.max(...ids) + 1 : 1`. -/
def lsNewMealId (l : List Meal) : ℕ := if 0 < l.length then maxMealId l + 1 else 1

/-- `getNewId` for the workout collection. -/
def lsNewWorkoutId (l : List Workout) : ℕ := if 0 < l.length then maxWorkoutId l + 1 else 1

/-- `updateDailyProgressAfterMeal` (module-level helper): loads the persisted
data, adds the meal's totals to the bucket row or creates a fresh row, and
saves. -/
def lsUpdateAfterMeal (data : LSData) (meal : Meal) : LSData :=
  match lsFindRow data.dailyProgress meal.userId meal.day with
  | some p =>
    let p1 := { p with
      caloriesConsumed := p.caloriesConsumed + meal.totalCalories
      proteinConsumed := p.proteinConsumed + meal.totalProtein }
    { data with dailyProgress := lsReplaceRow data.dailyProgress p1 }
  | none =>
    let fresh : LSRow :=
      { id := maxRowId data.dailyProgress + 1, userId := meal.userId, day := meal.day
        caloriesConsumed := meal.totalCalories, proteinConsumed := meal.totalProtein
        caloriesBurned := 0, carbsConsumed := 0, fatConsumed := 0, sugarConsumed := 0
        workoutMinutes := 0, rowingMeters := 0 }
    { data with dailyProgress := data.dailyProgress ++ [fresh] }

/-- `updateDailyProgressAfterMealDeletion`: subtract the meal's totals from
the bucket row, clamped at zero; no row, no change. -/
def lsUpdateAfterMealDeletion (data : LSData) (meal : Meal) : LSData :=
  match lsFindRow data.dailyProgress meal.userId meal.day with
  | some p =>
    let p1 := { p with
      caloriesConsumed := max 0 (p.caloriesConsumed - meal.totalCalories)
      proteinConsumed := max 0 (p.proteinConsumed - meal.totalProtein) }
    { data with dailyProgress := lsReplaceRow data.dailyProgress p1 }
  | none => data

/-- `updateDailyProgressAfterWorkout`: add duration, calories and
`details?.rowingMeters || 0`. -/
def lsUpdateAfterWorkout (data : LSData) (w : Workout) : LSData :=
  let rowingMeters := jsOrZero w.details.rowingMeters
  match lsFindRow data.dailyProgress w.userId w.day with
  | some p =>
    let p1 := { p with
      caloriesBurned := p.caloriesBurned + w.caloriesBurned
      workoutMinutes := p.workoutMinutes + w.durationMinutes
      rowingMeters := p.rowingMeters + rowingMeters }
    { data with dailyProgress := lsReplaceRow data.dailyProgress p1 }
  | none =>
    let fresh : LSRow :=
      { id := maxRowId data.dailyProgress + 1, userId := w.userId, day := w.day
        caloriesConsumed := 0, proteinConsumed := 0
        caloriesBurned := w.caloriesBurned
        carbsConsumed := 0, fatConsumed := 0, sugarConsumed := 0
        workoutMinutes := w.durationMinutes, rowingMeters := rowingMeters }
    { data with dailyProgress := data.dailyProgress ++ [fresh] }

/-- `updateDailyProgressAfterWorkoutDeletion`: subtract all three workout
counters, clamped at zero. -/
def lsUpdateAfterWorkoutDeletion (data : LSData) (w : Workout) : LSData :=
  let rowingMeters := jsOrZero w.details.rowingMeters
  match lsFindRow data.dailyProgress w.userId w.day with
  | some p =>
    let p1 := { p with
      caloriesBurned := max 0 (p.caloriesBurned - w.caloriesBurned)
      workoutMinutes := max 0 (p.workoutMinutes - w.durationMinutes)
      rowingMeters := max 0 (p.rowingMeters - rowingMeters) }
    { data with dailyProgress := lsReplaceRow data.dailyProgress p1 }
  | none => data

/-- Closure `createMeal`: push the meal into the closure snapshot, run the
helper against the persisted contents, then `saveData()` — which stores the
closure snapshot, overwriting what the helper just saved. -/
def LSState.createMeal (s : LSState) (im : MealInsert) : Meal × LSState :=
  let meal := im.withId (lsNewMealId s.mem.meals)
  let mem1 := { s.mem with meals := s.mem.meals ++ [meal] }
  let s2 : LSState := { mem := mem1, persisted := lsUpdateAfterMeal s.persisted meal }
  (meal, { s2 with persisted := mem1 })

/-- Closure `deleteMeal`: splice the meal out of the closure snapshot, run the
deletion helper against the persisted contents, then `saveData()`. -/
def LSState.deleteMeal (s : LSState) (id : ℕ) : Bool × LSState :=
  match findMeal s.mem.meals id with
  | none => (false, s)
  | some meal =>
    let mem1 := { s.mem with meals := removeMeal s.mem.meals id }
    let s2 : LSState := { mem := mem1, persisted := lsUpdateAfterMealDeletion s.persisted meal }
    (true, { s2 with persisted := mem1 })

/-- Closure `createWorkout`. -/
def LSState.createWorkout (s : LSState) (iw : WorkoutInsert) : Workout × LSState :=
  let w := iw.withId (lsNewWorkoutId s.mem.workouts)
  let mem1 := { s.mem with workouts := s.mem.workouts ++ [w] }
  let s2 : LSState := { mem := mem1, persisted := lsUpdateAfterWorkout s.persisted w }
  (w, { s2 with persisted := mem1 })

/-- Closure `deleteWorkout`. -/
def LSState.deleteWorkout (s : LSState) (id : ℕ) : Bool × LSState :=
  match findWorkout s.mem.workouts id with
  | none => (false, s)
  | some w =>
    let mem1 := { s.mem with workouts := removeWorkout s.mem.workouts id }
    let s2 : LSState := { mem := mem1, persisted := lsUpdateAfterWorkoutDeletion s.persisted w }
    (true, { s2 with persisted := mem1 })

/-- Closure `getDailyProgress`: reads the closure snapshot. -/
def LSState.getDailyProgress (s : LSState) (u d : ℕ) : Option LSRow :=
  lsFindRow s.mem.dailyProgress u d

/-- A client-local store that has been persisted once, with no records. -/
def lsEmpty : LSState := ⟨⟨[], [], []⟩, ⟨[], [], []⟩⟩

/-- `C1`: in the client-local backend, `createMeal` on an empty (already
persisted) store stores the meal but leaves no DailyProgress row at all: the
helper's row creation is overwritten when `createMeal` saves its own stale
snapshot.  The stored meals for the day sum to 300 calories while
`getDailyProgress` finds nothing, violating the sum invariant after a single
operation. -/
theorem localStorage_createMeal_loses_progress_update :
    (lsEmpty.createMeal ⟨1, 0, 300, 20, []⟩).2.getDailyProgress 1 0 = none ∧
    mealsSum Meal.totalCalories (lsEmpty.createMeal ⟨1, 0, 300, 20, []⟩).2.mem.meals 1 0 = 300 ∧
    (lsEmpty.createMeal ⟨1, 0, 300, 20, []⟩).2.persisted.dailyProgress = [] := by
  refine ⟨rfl, ?_, rfl⟩
  norm_num [LSState.createMeal, lsEmpty, MealInsert.withId, mealsSum, lsNewMealId]

/-! ## Relational backend (`DatabaseStorage`, `src/unnamed/part_000`)

Serial columns are modelled by explicit counters; the day-range query
(`gte startOfDay`/`lte endOfDay`) is the day-bucket equality. The row update
`where(eq(dailyProgress.id, progress.id))` targets the row that the bucket
lookup returned, which is the first row of the bucket — the same entry
`setRow` replaces. -/

/-- The state of the relational store. -/
structure DBState where
  meals : List Meal
  workouts : List Workout
  progress : List ProgressRow
  mealIdCounter : ℕ
  workoutIdCounter : ℕ
  progressIdCounter : ℕ

/-- A relational store with no rows. -/
def DBState.empty : DBState := ⟨[], [], [], 1, 1, 1⟩

/-- `DatabaseStorage.getDailyProgress`. -/
def DBState.getDailyProgress (s : DBState) (u d : ℕ) : Option ProgressRow :=
  findRow s.progress u d

/-- `DatabaseStorage.updateDailyProgressAfterMeal`: when a bucket row exists,
recompute every consumed field from all of the day's meals (carbs/fat/sugar
from line items); otherwise insert a row carrying the meal's own totals and
item sums.  `rowingMeters` takes the column default `0` on insert. -/
def DBState.updateDailyProgressAfterMeal (s : DBState) (meal : Meal) : DBState :=
  match findRow s.progress meal.userId meal.day with
  | some p =>
    let p1 := { p with
      caloriesConsumed := mealsSum Meal.totalCalories s.meals meal.userId meal.day
      proteinConsumed := mealsSum Meal.totalProtein s.meals meal.userId meal.day
      carbsConsumed := mealsSum (fun m => itemsCarbs m.items) s.meals meal.userId meal.day
      fatConsumed := mealsSum (fun m => itemsFat m.items) s.meals meal.userId meal.day
      sugarConsumed := mealsSum (fun m => itemsSugar m.items) s.meals meal.userId meal.day }
    { s with progress := setRow s.progress meal.userId meal.day p1 }
  | none =>
    let fresh : ProgressRow :=
      { id := s.progressIdCounter, userId := meal.userId, day := meal.day
        caloriesConsumed := meal.totalCalories
        proteinConsumed := meal.totalProtein
        carbsConsumed := itemsCarbs meal.items
        fatConsumed := itemsFat meal.items
        sugarConsumed := itemsSugar meal.items
        workoutMinutes := 0, caloriesBurned := 0, rowingMeters := some 0 }
    { s with
        progress := s.progress ++ [fresh]
        progressIdCounter := s.progressIdCounter + 1 }

/-- `DatabaseStorage.createMeal`. -/
def DBState.createMeal (s : DBState) (im : MealInsert) : Meal × DBState :=
  let meal := im.withId s.mealIdCounter
  let s1 := { s with meals := s.meals ++ [meal], mealIdCounter := s.mealIdCounter + 1 }
  (meal, s1.updateDailyProgressAfterMeal meal)

/-- `DatabaseStorage.deleteMeal`: missing id returns `false`; otherwise remove
the meal, re-sum the remaining day meals and overwrite the bucket row (when
one exists). -/
def DBState.deleteMeal (s : DBState) (id : ℕ) : Bool × DBState :=
  match findMeal s.meals id with
  | none => (false, s)
  | some meal =>
    let s1 := { s with meals := removeMeal s.meals id }
    match findRow s1.progress meal.userId meal.day with
    | some p =>
      let p1 := { p with
        caloriesConsumed := mealsSum Meal.totalCalories s1.meals meal.userId meal.day
        proteinConsumed := mealsSum Meal.totalProtein s1.meals meal.userId meal.day
        carbsConsumed := mealsSum (fun m => itemsCarbs m.items) s1.meals meal.userId meal.day
        fatConsumed := mealsSum (fun m => itemsFat m.items) s1.meals meal.userId meal.day
        sugarConsumed := mealsSum (fun m => itemsSugar m.items) s1.meals meal.userId meal.day }
      (true, { s1 with progress := setRow s1.progress meal.userId meal.day p1 })
    | none => (true, s1)

/-- `DatabaseStorage.deleteWorkout`: remove the workout and re-sum only
`workoutMinutes` and `caloriesBurned` over the remaining day workouts. -/
def DBState.deleteWorkout (s : DBState) (id : ℕ) : Bool × DBState :=
  match findWorkout s.workouts id with
  | none => (false, s)
  | some w =>
    let s1 := { s with workouts := removeWorkout s.workouts id }
    match findRow s1.progress w.userId w.day with
    | some p =>
      let p1 := { p with
        workoutMinutes := workoutsSum Workout.durationMinutes s1.workouts w.userId w.day
        caloriesBurned := workoutsSum Workout.caloriesBurned s1.workouts w.userId w.day }
      (true, { s1 with progress := setRow s1.progress w.userId w.day p1 })
    | none => (true, s1)

/-- `C7`: deleting a nonexistent meal or workout id returns `false` and leaves
the whole store — including every DailyProgress row — unchanged, in all three
backends. -/
theorem delete_nonexistent_returns_false_no_side_effects
    (ms : MemState) (ds : DBState) (ls : LSState) (i1 i2 i3 i4 i5 i6 : ℕ)
    (h1 : findMeal ms.meals i1 = none) (h2 : findWorkout ms.workouts i2 = none)
    (h3 : findMeal ds.meals i3 = none) (h4 : findWorkout ds.workouts i4 = none)
    (h5 : findMeal ls.mem.meals i5 = none) (h6 : findWorkout ls.mem.workouts i6 = none) :
    ms.deleteMeal i1 = (false, ms) ∧ ms.deleteWorkout i2 = (false, ms) ∧
    ds.deleteMeal i3 = (false, ds) ∧ ds.deleteWorkout i4 = (false, ds) ∧
    ls.deleteMeal i5 = (false, ls) ∧ ls.deleteWorkout i6 = (false, ls) := by
  refine ⟨?_, ?_, ?_, ?_, ?_, ?_⟩
  · simp only [MemState.deleteMeal, h1]
  · simp only [MemState.deleteWorkout, h2]
  · simp only [DBState.deleteMeal, h3]
  · simp only [DBState.deleteWorkout, h4]
  · simp only [LSState.deleteMeal, h5]
  · simp only [LSState.deleteWorkout, h6]

/-- `C7` witness: deleting id 42 from each empty backend. -/
theorem delete_nonexistent_witness :
    MemState.empty.deleteMeal 42 = (false, MemState.empty) ∧
    MemState.empty.deleteWorkout 42 = (false, MemState.empty) ∧
    DBState.empty.deleteMeal 42 = (false, DBState.empty) ∧
    DBState.empty.deleteWorkout 42 = (false, DBState.empty) ∧
    lsEmpty.deleteMeal 42 = (false, lsEmpty) ∧
    lsEmpty.deleteWorkout 42 = (false, lsEmpty) :=
  delete_nonexistent_returns_false_no_side_effects
    MemState.empty DBState.empty lsEmpty 42 42 42 42 42 42 rfl rfl rfl rfl rfl rfl

/-! ## Malformed numeric input in the aggregate maintainer (`C8`) -/

/-- A workout as `localStorage.ts`'s `updateDailyProgressAfterWorkout` reads
it, with the JavaScript number semantics made explicit: `none` is a missing or
`NaN` numeric field. -/
structure WorkoutJs where
  userId : ℕ
  day : ℕ
  durationMinutes : Option ℚ
  caloriesBurned : Option ℚ
  rowingMeters : Option ℚ

/-- `updateDailyProgressAfterWorkout` over possibly malformed numbers: each of
`workout.caloriesBurned || 0`, `workout.durationMinutes || 0` and
`workoutDetails?.rowingMeters || 0` silently coerces a missing or `NaN` value
to `0`, after which the update proceeds normally; the routine is total and
throws nothing. -/
def lsUpdateAfterWorkoutJs (data : LSData) (w : WorkoutJs) : LSData :=
  let caloriesBurned := jsOrZero w.caloriesBurned
  let workoutMinutes := jsOrZero w.durationMinutes
  let rowingMeters := jsOrZero w.rowingMeters
  match lsFindRow data.dailyProgress w.userId w.day with
  | some p =>
    let p1 := { p with
      caloriesBurned := p.caloriesBurned + caloriesBurned
      workoutMinutes := p.workoutMinutes + workoutMinutes
      rowingMeters := p.rowingMeters + rowingMeters }
    { data with dailyProgress := lsReplaceRow data.dailyProgress p1 }
  | none =>
    let fresh : LSRow :=
      { id := maxRowId data.dailyProgress + 1, userId := w.userId, day := w.day
        caloriesConsumed := 0, proteinConsumed := 0
        caloriesBurned := caloriesBurned
        carbsConsumed := 0, fatConsumed := 0, sugarConsumed := 0
        workoutMinutes := workoutMinutes, rowingMeters := rowingMeters }
    { data with dailyProgress := data.dailyProgress ++ [fresh] }

/-- `C8` counterexample: a workout whose `caloriesBurned` is `NaN` reaches the
aggregate maintainer; the operation completes normally and returns the updated
store with `NaN` coerced to `0` (the row's `caloriesBurned` stays 100), rather
than failing with a typed error. -/
theorem update_after_workout_coerces_nan :
    lsUpdateAfterWorkoutJs ⟨[], [], [⟨1, 1, 0, 0, 0, 100, 0, 0, 0, 40, 0⟩]⟩
        ⟨1, 0, some 30, none, none⟩ =
      ⟨[], [], [⟨1, 1, 0, 0, 0, 100, 0, 0, 0, 70, 0⟩]⟩ := by
  norm_num [lsUpdateAfterWorkoutJs, jsOrZero, lsFindRow, lsReplaceRow]

/-- `C8` (amended): a missing or `NaN` `caloriesBurned` reaching the aggregate
maintainer is silently coerced to zero — the routine behaves exactly as if the
field were `0` and continues, with no failure path. -/
theorem update_after_workout_nan_coerced_to_zero (data : LSData) (w : WorkoutJs)
    (h : w.caloriesBurned = none) :
    lsUpdateAfterWorkoutJs data w =
      lsUpdateAfterWorkoutJs data { w with caloriesBurned := some 0 } := by
  simp [lsUpdateAfterWorkoutJs, h, jsOrZero]

/-- `C8` witness: the coercion equivalence at a concrete `NaN` input. -/
theorem update_after_workout_nan_witness :
    lsUpdateAfterWorkoutJs ⟨[], [], []⟩ ⟨1, 0, some 30, none, none⟩ =
      lsUpdateAfterWorkoutJs ⟨[], [], []⟩ ⟨1, 0, some 30, some 0, none⟩ :=
  update_after_workout_nan_coerced_to_zero ⟨[], [], []⟩ ⟨1, 0, some 30, none, none⟩ rfl

/-! ## Backend substitutability (`C2`)

A sequence of Meal operations is replayed against the in-memory and the
relational backend; both allocate ids from the same counter scheme, so the
same sequence addresses the same records in both. -/

/-- A meal operation of the RecordStore contract. -/
inductive MealOp where
  | create (im : MealInsert)
  | delete (id : ℕ)

/-- Payloads with the nonnegative totals upstream validation guarantees. -/
def MealOp.wellFormed : MealOp → Prop
  | .create im => 0 ≤ im.totalCalories ∧ 0 ≤ im.totalProtein
  | .delete _ => True

/-- One meal operation against `MemStorage`. -/
def MemState.applyMealOp (s : MemState) : MealOp → MemState
  | .create im => (s.createMeal im).2
  | .delete id => (s.deleteMeal id).2

/-- Replay a sequence of meal operations against `MemStorage`. -/
def MemState.runMealOps (s : MemState) : List MealOp → MemState
  | [] => s
  | op :: rest => (s.applyMealOp op).runMealOps rest

/-- One meal operation against `DatabaseStorage`. -/
def DBState.applyMealOp (t : DBState) : MealOp → DBState
  | .create im => (t.createMeal im).2
  | .delete id => (t.deleteMeal id).2

/-- Replay a sequence of meal operations against `DatabaseStorage`. -/
def DBState.runMealOps (t : DBState) : List MealOp → DBState
  | [] => t
  | op :: rest => (t.applyMealOp op).runMealOps rest

/-- The externally observable value of one DailyProgress counter for a
bucket; a missing row reads as the synthesized zero (spec, §4.2). -/
def bucketValue (f : ProgressRow → ℚ) (rows : List ProgressRow) (u d : ℕ) : ℚ :=
  match findRow rows u d with
  | none => 0
  | some r => f r

/-! ### List lemmas for the sum bookkeeping -/

/-- Appending one meal adds its contribution to the bucket sum. -/
theorem mealsSum_append (f : Meal → ℚ) (l : List Meal) (m : Meal) (u d : ℕ) :
    mealsSum f (l ++ [m]) u d =
      mealsSum f l u d + (if m.userId = u ∧ m.day = d then f m else 0) := by
  induction l with
  | nil => simp [mealsSum]
  | cons m0 rest ih =>
    simp only [List.cons_append, mealsSum, List.append_eq]
    rw [ih]
    ring

/-- A bucket sum over nonnegative attributes is nonnegative. -/
theorem mealsSum_nonneg (f : Meal → ℚ) (l : List Meal) (u d : ℕ)
    (h : ∀ m ∈ l, 0 ≤ f m) : 0 ≤ mealsSum f l u d := by
  induction l with
  | nil => simp [mealsSum]
  | cons m0 rest ih =>
    rw [mealsSum]
    have h0 := h m0 (by simp)
    have hr : ∀ m ∈ rest, 0 ≤ f m := fun m hm => h m (by simp [hm])
    by_cases hb : m0.userId = u ∧ m0.day = d
    · rw [if_pos hb]
      exact add_nonneg h0 (ih hr)
    · rw [if_neg hb]
      simpa using ih hr

/-- A bucket with no meals sums to zero. -/
theorem mealsSum_empty_bucket (f : Meal → ℚ) (l : List Meal) (u d : ℕ)
    (h : ∀ m ∈ l, ¬(m.userId = u ∧ m.day = d)) : mealsSum f l u d = 0 := by
  induction l with
  | nil => simp [mealsSum]
  | cons m0 rest ih =>
    rw [mealsSum, if_neg (h m0 (by simp))]
    have hr : ∀ m ∈ rest, ¬(m.userId = u ∧ m.day = d) := fun m hm => h m (by simp [hm])
    rw [ih hr]
    ring

/-- `findMeal` returns a member with the queried id. -/
theorem findMeal_mem (l : List Meal) (id : ℕ) (m : Meal)
    (h : findMeal l id = some m) : m ∈ l ∧ m.id = id := by
  induction l with
  | nil => exact absurd h (by simp [findMeal])
  | cons m0 rest ih =>
    by_cases h0 : m0.id = id
    · rw [findMeal, if_pos h0] at h
      obtain rfl : m0 = m := by simpa using h
      exact ⟨by simp, h0⟩
    · rw [findMeal, if_neg h0] at h
      obtain ⟨hmem, hid⟩ := ih h
      exact ⟨by simp [hmem], hid⟩

/-- Removing an id that is not present changes nothing. -/
theorem removeMeal_of_not_found (l : List Meal) (id : ℕ)
    (h : findMeal l id = none) : removeMeal l id = l := by
  induction l with
  | nil => rfl
  | cons m0 rest ih =>
    by_cases h0 : m0.id = id
    · rw [findMeal, if_pos h0] at h
      exact absurd h (by simp)
    · rw [findMeal, if_neg h0] at h
      rw [removeMeal, if_neg h0, ih h]

/-- Members of `removeMeal l id` are members of `l`. -/
theorem removeMeal_subset (l : List Meal) (id : ℕ) (m : Meal)
    (h : m ∈ removeMeal l id) : m ∈ l := by
  induction l with
  | nil => exact absurd h (by simp [removeMeal])
  | cons m0 rest ih =>
    by_cases h0 : m0.id = id
    · rw [removeMeal, if_pos h0] at h
      exact by simp [h]
    · rw [removeMeal, if_neg h0] at h
      rcases List.mem_cons.mp h with h1 | h2
      · simp [h1]
      · simp [ih h2]

/-- Removing the meal `findMeal` found subtracts exactly its contribution
from every bucket sum. -/
theorem mealsSum_removeMeal (f : Meal → ℚ) (l : List Meal) (id : ℕ) (m : Meal)
    (u d : ℕ) (h : findMeal l id = some m) :
    mealsSum f (removeMeal l id) u d =
      mealsSum f l u d - (if m.userId = u ∧ m.day = d then f m else 0) := by
  induction l with
  | nil => exact absurd h (by simp [findMeal])
  | cons m0 rest ih =>
    by_cases h0 : m0.id = id
    · rw [findMeal, if_pos h0] at h
      obtain rfl : m0 = m := by simpa using h
      rw [removeMeal, if_pos h0, mealsSum]
      ring
    · rw [findMeal, if_neg h0] at h
      rw [removeMeal, if_neg h0, mealsSum, mealsSum, ih h]
      ring

/-- `findRow` after appending a row to the end of the list. -/
theorem findRow_append_single (l : List ProgressRow) (r : ProgressRow) (u d : ℕ) :
    findRow (l ++ [r]) u d =
      match findRow l u d with
      | some x => some x
      | none => if r.userId = u ∧ r.day = d then some r else none := by
  induction l with
  | nil => simp [findRow]
  | cons r0 rest ih =>
    by_cases h0 : r0.userId = u ∧ r0.day = d
    · simp [findRow, h0]
    · simp only [List.cons_append, findRow, if_neg h0, List.append_eq]
      rw [ih]

/-- `setRow` keeps every nonempty bucket nonempty, and fills its own. -/
theorem findRow_setRow_isSome (l : List ProgressRow) (u d u' d' : ℕ) (r : ProgressRow)
    (hu : r.userId = u) (hd : r.day = d)
    (h : (findRow l u' d').isSome ∨ (u = u' ∧ d = d')) :
    (findRow (setRow l u d r) u' d').isSome := by
  by_cases hb : u = u' ∧ d = d'
  · obtain ⟨rfl, rfl⟩ := hb
    rw [findRow_setRow_self l u d r hu hd]
    rfl
  · rcases h with h' | h'
    · rw [findRow_setRow_other l u d u' d' r hu hd hb]
      exact h'
    · exact absurd h' hb

/-! ### The per-day sum invariant, per backend -/

/-- Upstream-validated meals: nonnegative totals. -/
def mealsWellFormed (l : List Meal) : Prop :=
  ∀ m ∈ l, 0 ≤ m.totalCalories ∧ 0 ≤ m.totalProtein

/-- Every stored meal's bucket has a DailyProgress row. -/
def bucketsTracked (meals : List Meal) (rows : List ProgressRow) : Prop :=
  ∀ m ∈ meals, (findRow rows m.userId m.day).isSome

/-- Every DailyProgress row carries the exact calorie and protein sums of its
bucket's stored meals. -/
def rowsMatchMeals (meals : List Meal) (rows : List ProgressRow) : Prop :=
  ∀ u d r, findRow rows u d = some r →
    r.caloriesConsumed = mealsSum Meal.totalCalories meals u d ∧
    r.proteinConsumed = mealsSum Meal.totalProtein meals u d

/-- The meal-path invariant of the in-memory backend. -/
def memMealInv (s : MemState) : Prop :=
  mealsWellFormed s.meals ∧ bucketsTracked s.meals s.progress ∧
    rowsMatchMeals s.meals s.progress

/-- The meal-path invariant of the relational backend. -/
def dbMealInv (t : DBState) : Prop :=
  mealsWellFormed t.meals ∧ bucketsTracked t.meals t.progress ∧
    rowsMatchMeals t.meals t.progress

/-- A bucket with no DailyProgress row has no meals, hence zero sums. -/
theorem mealsSum_zero_of_untracked (f : Meal → ℚ) (meals : List Meal)
    (rows : List ProgressRow) (u d : ℕ) (ht : bucketsTracked meals rows)
    (h : findRow rows u d = none) : mealsSum f meals u d = 0 := by
  refine mealsSum_empty_bucket f meals u d (fun m hm hbad => ?_)
  have hsome := ht m hm
  rw [hbad.1, hbad.2, h] at hsome
  exact absurd hsome (by simp)

/-- `MemStorage.createMeal` preserves the meal-path invariant when the payload
totals are nonnegative. -/
theorem memMealInv_createMeal (s : MemState) (im : MealInsert)
    (hs : memMealInv s) (him : 0 ≤ im.totalCalories ∧ 0 ≤ im.totalProtein) :
    memMealInv (s.createMeal im).2 := by
  obtain ⟨hwf, htr, hmatch⟩ := hs
  cases hrow : findRow s.progress im.userId im.day with
  | none =>
    simp only [MemState.createMeal, MemState.updateDailyProgressAfterMeal,
      MealInsert.withId, hrow, memMealInv]
    refine ⟨?_, ?_, ?_⟩
    · intro m hm
      rcases List.mem_append.mp hm with h1 | h2
      · exact hwf m h1
      · have h3 : m = im.withId s.mealIdCounter := by
          simpa [MealInsert.withId] using h2
        subst h3
        exact him
    · intro m hm
      refine findRow_setRow_isSome _ _ _ _ _ _ rfl rfl ?_
      rcases List.mem_append.mp hm with h1 | h2
      · exact Or.inl (htr m h1)
      · have h3 : m = im.withId s.mealIdCounter := by
          simpa [MealInsert.withId] using h2
        subst h3
        exact Or.inr ⟨rfl, rfl⟩
    · intro u' d' r' h'
      by_cases hb : im.userId = u' ∧ im.day = d'
      · obtain ⟨rfl, rfl⟩ := hb
        rw [findRow_setRow_self s.progress im.userId im.day _ rfl rfl] at h'
        cases h'
        have hz1 := mealsSum_zero_of_untracked Meal.totalCalories s.meals s.progress
          im.userId im.day htr hrow
        have hz2 := mealsSum_zero_of_untracked Meal.totalProtein s.meals s.progress
          im.userId im.day htr hrow
        constructor
        · rw [mealsSum_append, hz1]
          simp
        · rw [mealsSum_append, hz2]
          simp
      · rw [findRow_setRow_other s.progress im.userId im.day u' d' _ rfl rfl hb] at h'
        obtain ⟨hc, hp⟩ := hmatch u' d' r' h'
        constructor
        · rw [mealsSum_append, hc, if_neg hb]
          ring
        · rw [mealsSum_append, hp, if_neg hb]
          ring
  | some dp =>
    obtain ⟨hdu, hdd⟩ := findRow_eq_bucket _ _ _ _ hrow
    simp only [MemState.createMeal, MemState.updateDailyProgressAfterMeal,
      MealInsert.withId, hrow, memMealInv]
    refine ⟨?_, ?_, ?_⟩
    · intro m hm
      rcases List.mem_append.mp hm with h1 | h2
      · exact hwf m h1
      · have h3 : m = im.withId s.mealIdCounter := by
          simpa [MealInsert.withId] using h2
        subst h3
        exact him
    · intro m hm
      refine findRow_setRow_isSome _ _ _ _ _ _ hdu hdd ?_
      rcases List.mem_append.mp hm with h1 | h2
      · exact Or.inl (htr m h1)
      · have h3 : m = im.withId s.mealIdCounter := by
          simpa [MealInsert.withId] using h2
        subst h3
        exact Or.inr ⟨rfl, rfl⟩
    · intro u' d' r' h'
      obtain ⟨hc0, hp0⟩ := hmatch im.userId im.day dp hrow
      by_cases hb : im.userId = u' ∧ im.day = d'
      · obtain ⟨rfl, rfl⟩ := hb
        rw [findRow_setRow_self s.progress im.userId im.day] at h'
        · cases h'
          constructor
          · rw [mealsSum_append, hc0]
            simp
          · rw [mealsSum_append, hp0]
            simp
        · exact hdu
        · exact hdd
      · rw [findRow_setRow_other s.progress im.userId im.day u' d'] at h'
        · obtain ⟨hc, hp⟩ := hmatch u' d' r' h'
          constructor
          · rw [mealsSum_append, hc, if_neg hb]
            ring
          · rw [mealsSum_append, hp, if_neg hb]
            ring
        · exact hdu
        · exact hdd
        · exact hb

/-- `MemStorage.deleteMeal` preserves the meal-path invariant. -/
theorem memMealInv_deleteMeal (s : MemState) (id : ℕ) (hs : memMealInv s) :
    memMealInv (s.deleteMeal id).2 := by
  obtain ⟨hwf, htr, hmatch⟩ := hs
  cases hfind : findMeal s.meals id with
  | none => simpa [MemState.deleteMeal, hfind] using ⟨hwf, htr, hmatch⟩
  | some meal =>
    obtain ⟨hmem, hid⟩ := findMeal_mem _ _ _ hfind
    cases hrow : findRow s.progress meal.userId meal.day with
    | none =>
      have hsome := htr meal hmem
      rw [hrow] at hsome
      exact absurd hsome (by simp)
    | some dp =>
      obtain ⟨hdu, hdd⟩ := findRow_eq_bucket _ _ _ _ hrow
      obtain ⟨hc0, hp0⟩ := hmatch meal.userId meal.day dp hrow
      have hwf' : mealsWellFormed (removeMeal s.meals id) :=
        fun m hm => hwf m (removeMeal_subset _ _ _ hm)
      have hcal := mealsSum_removeMeal Meal.totalCalories s.meals id meal
        meal.userId meal.day hfind
      have hprot := mealsSum_removeMeal Meal.totalProtein s.meals id meal
        meal.userId meal.day hfind
      rw [if_pos ⟨rfl, rfl⟩] at hcal hprot
      have hcal0 : 0 ≤ mealsSum Meal.totalCalories (removeMeal s.meals id)
          meal.userId meal.day :=
        mealsSum_nonneg _ _ _ _ (fun m hm => (hwf' m hm).1)
      have hprot0 : 0 ≤ mealsSum Meal.totalProtein (removeMeal s.meals id)
          meal.userId meal.day :=
        mealsSum_nonneg _ _ _ _ (fun m hm => (hwf' m hm).2)
      simp only [MemState.deleteMeal, hfind, hrow]
      refine ⟨hwf', ?_, ?_⟩
      · intro m hm
        exact findRow_setRow_isSome _ _ _ _ _ _ hdu hdd
          (Or.inl (htr m (removeMeal_subset _ _ _ hm)))
      · intro u' d' r' h'
        by_cases hb : meal.userId = u' ∧ meal.day = d'
        · obtain ⟨rfl, rfl⟩ := hb
          rw [findRow_setRow_self s.progress meal.userId meal.day] at h'
          · cases h'
            constructor
            · show max 0 (dp.caloriesConsumed - meal.totalCalories) = _
              rw [hc0, ← hcal]
              exact max_eq_right hcal0
            · show max 0 (dp.proteinConsumed - meal.totalProtein) = _
              rw [hp0, ← hprot]
              exact max_eq_right hprot0
          · exact hdu
          · exact hdd
        · rw [findRow_setRow_other s.progress meal.userId meal.day u' d'] at h'
          · obtain ⟨hc, hp⟩ := hmatch u' d' r' h'
            have hcal' := mealsSum_removeMeal Meal.totalCalories s.meals id meal u' d' hfind
            have hprot' := mealsSum_removeMeal Meal.totalProtein s.meals id meal u' d' hfind
            rw [if_neg hb] at hcal' hprot'
            constructor
            · rw [hcal', hc]
              ring
            · rw [hprot', hp]
              ring
          · exact hdu
          · exact hdd
          · exact hb

/-- `DatabaseStorage.createMeal` preserves the meal-path invariant. -/
theorem dbMealInv_createMeal (t : DBState) (im : MealInsert)
    (hs : dbMealInv t) (him : 0 ≤ im.totalCalories ∧ 0 ≤ im.totalProtein) :
    dbMealInv (t.createMeal im).2 := by
  obtain ⟨hwf, htr, hmatch⟩ := hs
  cases hrow : findRow t.progress im.userId im.day with
  | some p =>
    obtain ⟨hdu, hdd⟩ := findRow_eq_bucket _ _ _ _ hrow
    simp only [DBState.createMeal, DBState.updateDailyProgressAfterMeal,
      MealInsert.withId, hrow, dbMealInv]
    refine ⟨?_, ?_, ?_⟩
    · intro m hm
      rcases List.mem_append.mp hm with h1 | h2
      · exact hwf m h1
      · have h3 : m = im.withId t.mealIdCounter := by
          simpa [MealInsert.withId] using h2
        subst h3
        exact him
    · intro m hm
      refine findRow_setRow_isSome _ _ _ _ _ _ hdu hdd ?_
      rcases List.mem_append.mp hm with h1 | h2
      · exact Or.inl (htr m h1)
      · have h3 : m = im.withId t.mealIdCounter := by
          simpa [MealInsert.withId] using h2
        subst h3
        exact Or.inr ⟨rfl, rfl⟩
    · intro u' d' r' h'
      by_cases hb : im.userId = u' ∧ im.day = d'
      · obtain ⟨rfl, rfl⟩ := hb
        rw [findRow_setRow_self t.progress im.userId im.day] at h'
        · cases h'
          exact ⟨rfl, rfl⟩
        · exact hdu
        · exact hdd
      · rw [findRow_setRow_other t.progress im.userId im.day u' d'] at h'
        · obtain ⟨hc, hp⟩ := hmatch u' d' r' h'
          constructor
          · rw [mealsSum_append, hc, if_neg hb]
            ring
          · rw [mealsSum_append, hp, if_neg hb]
            ring
        · exact hdu
        · exact hdd
        · exact hb
  | none =>
    simp only [DBState.createMeal, DBState.updateDailyProgressAfterMeal,
      MealInsert.withId, hrow, dbMealInv]
    refine ⟨?_, ?_, ?_⟩
    · intro m hm
      rcases List.mem_append.mp hm with h1 | h2
      · exact hwf m h1
      · have h3 : m = im.withId t.mealIdCounter := by
          simpa [MealInsert.withId] using h2
        subst h3
        exact him
    · intro m hm
      rcases List.mem_append.mp hm with h1 | h2
      · rcases Option.isSome_iff_exists.mp (htr m h1) with ⟨x, hx⟩
        rw [findRow_append_single, hx]
        rfl
      · have h3 : m = im.withId t.mealIdCounter := by
          simpa [MealInsert.withId] using h2
        subst h3
        dsimp only [MealInsert.withId]
        rw [findRow_append_single, hrow]
        simp
    · intro u' d' r' h'
      rw [findRow_append_single] at h'
      cases hfr : findRow t.progress u' d' with
      | some x =>
        rw [hfr] at h'
        cases h'
        have hb : ¬(im.userId = u' ∧ im.day = d') := by
          rintro ⟨rfl, rfl⟩
          rw [hrow] at hfr
          cases hfr
        obtain ⟨hc, hp⟩ := hmatch u' d' r' hfr
        constructor
        · rw [mealsSum_append, hc, if_neg hb]
          ring
        · rw [mealsSum_append, hp, if_neg hb]
          ring
      | none =>
        rw [hfr] at h'
        by_cases hcond : im.userId = u' ∧ im.day = d'
        · obtain ⟨rfl, rfl⟩ := hcond
          rw [if_pos ⟨rfl, rfl⟩] at h'
          cases h'
          have hz1 := mealsSum_zero_of_untracked Meal.totalCalories t.meals t.progress
            im.userId im.day htr hrow
          have hz2 := mealsSum_zero_of_untracked Meal.totalProtein t.meals t.progress
            im.userId im.day htr hrow
          constructor
          · rw [mealsSum_append, hz1]
            simp
          · rw [mealsSum_append, hz2]
            simp
        · rw [if_neg hcond] at h'
          cases h'

/-- `DatabaseStorage.deleteMeal` preserves the meal-path invariant. -/
theorem dbMealInv_deleteMeal (t : DBState) (id : ℕ) (hs : dbMealInv t) :
    dbMealInv (t.deleteMeal id).2 := by
  obtain ⟨hwf, htr, hmatch⟩ := hs
  cases hfind : findMeal t.meals id with
  | none => simpa [DBState.deleteMeal, hfind, dbMealInv] using ⟨hwf, htr, hmatch⟩
  | some meal =>
    obtain ⟨hmem, hid⟩ := findMeal_mem _ _ _ hfind
    cases hrow : findRow t.progress meal.userId meal.day with
    | none =>
      have hsome := htr meal hmem
      rw [hrow] at hsome
      exact absurd hsome (by simp)
    | some p =>
      obtain ⟨hdu, hdd⟩ := findRow_eq_bucket _ _ _ _ hrow
      have hwf' : mealsWellFormed (removeMeal t.meals id) :=
        fun m hm => hwf m (removeMeal_subset _ _ _ hm)
      simp only [DBState.deleteMeal, hfind, hrow, dbMealInv]
      refine ⟨hwf', ?_, ?_⟩
      · intro m hm
        exact findRow_setRow_isSome _ _ _ _ _ _ hdu hdd
          (Or.inl (htr m (removeMeal_subset _ _ _ hm)))
      · intro u' d' r' h'
        by_cases hb : meal.userId = u' ∧ meal.day = d'
        · obtain ⟨rfl, rfl⟩ := hb
          rw [findRow_setRow_self t.progress meal.userId meal.day] at h'
          · cases h'
            exact ⟨rfl, rfl⟩
          · exact hdu
          · exact hdd
        · rw [findRow_setRow_other t.progress meal.userId meal.day u' d'] at h'
          · obtain ⟨hc, hp⟩ := hmatch u' d' r' h'
            have hcal' := mealsSum_removeMeal Meal.totalCalories t.meals id meal u' d' hfind
            have hprot' := mealsSum_removeMeal Meal.totalProtein t.meals id meal u' d' hfind
            rw [if_neg hb] at hcal' hprot'
            constructor
            · rw [hcal', hc]
              ring
            · rw [hprot', hp]
              ring
          · exact hdu
          · exact hdd
          · exact hb

/-! ### Replay lemmas -/

/-- `MemStorage.createMeal` appends the meal with the counter id. -/
theorem MemState.createMeal_meals (s : MemState) (im : MealInsert) :
    (s.createMeal im).2.meals = s.meals ++ [im.withId s.mealIdCounter] := by
  simp only [MemState.createMeal, MemState.updateDailyProgressAfterMeal]
  split <;> rfl

/-- `MemStorage.createMeal` bumps the meal id counter. -/
theorem MemState.createMeal_counter (s : MemState) (im : MealInsert) :
    (s.createMeal im).2.mealIdCounter = s.mealIdCounter + 1 := by
  simp only [MemState.createMeal, MemState.updateDailyProgressAfterMeal]
  split <;> rfl

/-- `MemStorage.deleteMeal` removes exactly the addressed meal. -/
theorem MemState.deleteMeal_meals (s : MemState) (id : ℕ) :
    (s.deleteMeal id).2.meals = removeMeal s.meals id := by
  cases hfind : findMeal s.meals id with
  | none =>
    simp only [MemState.deleteMeal, hfind]
    rw [removeMeal_of_not_found s.meals id hfind]
  | some meal =>
    simp only [MemState.deleteMeal, hfind]
    split <;> rfl

/-- `MemStorage.deleteMeal` leaves the meal id counter alone. -/
theorem MemState.deleteMeal_counter (s : MemState) (id : ℕ) :
    (s.deleteMeal id).2.mealIdCounter = s.mealIdCounter := by
  cases hfind : findMeal s.meals id with
  | none => simp only [MemState.deleteMeal, hfind]
  | some meal =>
    simp only [MemState.deleteMeal, hfind]
    split <;> rfl

/-- `DatabaseStorage.createMeal` appends the meal with the counter id. -/
theorem DBState.db_createMeal_meals (t : DBState) (im : MealInsert) :
    (t.createMeal im).2.meals = t.meals ++ [im.withId t.mealIdCounter] := by
  simp only [DBState.createMeal, DBState.updateDailyProgressAfterMeal]
  split <;> rfl

/-- `DatabaseStorage.createMeal` bumps the meal id counter. -/
theorem DBState.db_createMeal_counter (t : DBState) (im : MealInsert) :
    (t.createMeal im).2.mealIdCounter = t.mealIdCounter + 1 := by
  simp only [DBState.createMeal, DBState.updateDailyProgressAfterMeal]
  split <;> rfl

/-- `DatabaseStorage.deleteMeal` removes exactly the addressed meal. -/
theorem DBState.db_deleteMeal_meals (t : DBState) (id : ℕ) :
    (t.deleteMeal id).2.meals = removeMeal t.meals id := by
  cases hfind : findMeal t.meals id with
  | none =>
    simp only [DBState.deleteMeal, hfind]
    rw [removeMeal_of_not_found t.meals id hfind]
  | some meal =>
    simp only [DBState.deleteMeal, hfind]
    split <;> rfl

/-- `DatabaseStorage.deleteMeal` leaves the meal id counter alone. -/
theorem DBState.db_deleteMeal_counter (t : DBState) (id : ℕ) :
    (t.deleteMeal id).2.mealIdCounter = t.mealIdCounter := by
  cases hfind : findMeal t.meals id with
  | none => simp only [DBState.deleteMeal, hfind]
  | some meal =>
    simp only [DBState.deleteMeal, hfind]
    split <;> rfl

/-- Replaying the same operations keeps the meal tables and id allocation of
the two backends in lockstep. -/
theorem runMealOps_meals_eq (ops : List MealOp) (s : MemState) (t : DBState)
    (hm : s.meals = t.meals) (hc : s.mealIdCounter = t.mealIdCounter) :
    (s.runMealOps ops).meals = (t.runMealOps ops).meals ∧
      (s.runMealOps ops).mealIdCounter = (t.runMealOps ops).mealIdCounter := by
  induction ops generalizing s t with
  | nil => exact ⟨hm, hc⟩
  | cons op rest ih =>
    rw [MemState.runMealOps, DBState.runMealOps]
    cases op with
    | create im =>
      refine ih _ _ ?_ ?_
      · rw [MemState.applyMealOp, DBState.applyMealOp, MemState.createMeal_meals,
          DBState.db_createMeal_meals, hm, hc]
      · rw [MemState.applyMealOp, DBState.applyMealOp, MemState.createMeal_counter,
          DBState.db_createMeal_counter, hc]
    | delete id =>
      refine ih _ _ ?_ ?_
      · rw [MemState.applyMealOp, DBState.applyMealOp, MemState.deleteMeal_meals,
          DBState.db_deleteMeal_meals, hm]
      · rw [MemState.applyMealOp, DBState.applyMealOp, MemState.deleteMeal_counter,
          DBState.db_deleteMeal_counter, hc]

/-- The in-memory invariant holds along any well-formed replay. -/
theorem memMealInv_run (ops : List MealOp) (h : ∀ op ∈ ops, op.wellFormed)
    (s : MemState) (hs : memMealInv s) : memMealInv (s.runMealOps ops) := by
  induction ops generalizing s with
  | nil => exact hs
  | cons op rest ih =>
    rw [MemState.runMealOps]
    refine ih (fun o ho => h o (by simp [ho])) _ ?_
    cases op with
    | create im =>
      have him := h (MealOp.create im) (by simp)
      exact memMealInv_createMeal s im hs him
    | delete id => exact memMealInv_deleteMeal s id hs

/-- The relational invariant holds along any well-formed replay. -/
theorem dbMealInv_run (ops : List MealOp) (h : ∀ op ∈ ops, op.wellFormed)
    (t : DBState) (ht : dbMealInv t) : dbMealInv (t.runMealOps ops) := by
  induction ops generalizing t with
  | nil => exact ht
  | cons op rest ih =>
    rw [DBState.runMealOps]
    refine ih (fun o ho => h o (by simp [ho])) _ ?_
    cases op with
    | create im =>
      have him := h (MealOp.create im) (by simp)
      exact dbMealInv_createMeal t im ht him
    | delete id => exact dbMealInv_deleteMeal t id ht

/-- The empty in-memory store satisfies the invariant. -/
theorem memMealInv_empty : memMealInv MemState.empty := by
  refine ⟨fun m hm => absurd hm ?_, fun m hm => absurd hm ?_, fun u d r h => absurd h ?_⟩ <;>
    simp [MemState.empty, findRow]

/-- The empty relational store satisfies the invariant. -/
theorem dbMealInv_empty : dbMealInv DBState.empty := by
  refine ⟨fun m hm => absurd hm ?_, fun m hm => absurd hm ?_, fun u d r h => absurd h ?_⟩ <;>
    simp [DBState.empty, findRow]

/-- Under the invariant, the displayed bucket counters are exactly the bucket
sums of the stored meals. -/
theorem bucketValue_eq_sums (meals : List Meal) (rows : List ProgressRow)
    (htr : bucketsTracked meals rows) (hmatch : rowsMatchMeals meals rows) (u d : ℕ) :
    bucketValue ProgressRow.caloriesConsumed rows u d =
      mealsSum Meal.totalCalories meals u d ∧
    bucketValue ProgressRow.proteinConsumed rows u d =
      mealsSum Meal.totalProtein meals u d := by
  cases hr : findRow rows u d with
  | none =>
    simp only [bucketValue, hr]
    constructor
    · exact (mealsSum_zero_of_untracked Meal.totalCalories meals rows u d htr hr).symm
    · exact (mealsSum_zero_of_untracked Meal.totalProtein meals rows u d htr hr).symm
  | some r =>
    simp only [bucketValue, hr]
    exact hmatch u d r hr

/-- `C2` counterexample: the same meal sequence — create two meals carrying
carbs in their line items, then delete the first — replayed against the
in-memory and the relational backend, leaves the day's `carbsConsumed` in
observably different states (`MemStorage` never maintains it and reads 0; the
relational recompute reads 5), so `deleteMeal` is not drop-in substitutable
across backends. -/
theorem mem_db_deleteMeal_observable_divergence :
    bucketValue ProgressRow.carbsConsumed
        (MemState.empty.runMealOps
          [MealOp.create ⟨1, 0, 300, 20, [⟨300, some 20, some 30, none, none⟩]⟩,
           MealOp.create ⟨1, 0, 200, 10, [⟨200, some 10, some 5, none, none⟩]⟩,
           MealOp.delete 1]).progress 1 0 ≠
      bucketValue ProgressRow.carbsConsumed
        (DBState.empty.runMealOps
          [MealOp.create ⟨1, 0, 300, 20, [⟨300, some 20, some 30, none, none⟩]⟩,
           MealOp.create ⟨1, 0, 200, 10, [⟨200, some 10, some 5, none, none⟩]⟩,
           MealOp.delete 1]).progress 1 0 := by
  norm_num [MemState.runMealOps, DBState.runMealOps, MemState.applyMealOp,
    DBState.applyMealOp, MemState.createMeal, DBState.createMeal,
    MemState.deleteMeal, DBState.deleteMeal, MemState.updateDailyProgressAfterMeal,
    DBState.updateDailyProgressAfterMeal, MealInsert.withId, MemState.empty,
    DBState.empty, findRow, setRow, findMeal, removeMeal, mealsSum, itemsCarbs,
    itemsFat, itemsSugar, jsOrZero, bucketValue]

/-- `C2` (amended): for any sequence of meal creates and deletes with
upstream-validated (nonnegative) totals, replayed from empty stores, the
in-memory and relational backends agree on the externally observable
`caloriesConsumed` and `proteinConsumed` of every user/day — both equal the
bucket sums — but the full state transitions are not identical across
backends: the relational backend also maintains `carbsConsumed`,
`fatConsumed` and `sugarConsumed` from line items while the in-memory backend
leaves them at zero, and the client-local backend loses aggregate updates
altogether. -/
theorem mem_db_agree_on_calories_protein (ops : List MealOp)
    (h : ∀ op ∈ ops, op.wellFormed) (u d : ℕ) :
    bucketValue ProgressRow.caloriesConsumed
        (MemState.empty.runMealOps ops).progress u d =
      bucketValue ProgressRow.caloriesConsumed
        (DBState.empty.runMealOps ops).progress u d ∧
    bucketValue ProgressRow.proteinConsumed
        (MemState.empty.runMealOps ops).progress u d =
      bucketValue ProgressRow.proteinConsumed
        (DBState.empty.runMealOps ops).progress u d := by
  obtain ⟨hwfm, htrm, hmm⟩ := memMealInv_run ops h MemState.empty memMealInv_empty
  obtain ⟨hwfd, htrd, hmd⟩ := dbMealInv_run ops h DBState.empty dbMealInv_empty
  obtain ⟨hmeals, -⟩ := runMealOps_meals_eq ops MemState.empty DBState.empty rfl rfl
  obtain ⟨hc1, hp1⟩ := bucketValue_eq_sums _ _ htrm hmm u d
  obtain ⟨hc2, hp2⟩ := bucketValue_eq_sums _ _ htrd hmd u d
  constructor
  · rw [hc1, hc2, hmeals]
  · rw [hp1, hp2, hmeals]

/-- `C2` witness: agreement of the two backends on a one-create replay. -/
theorem mem_db_agree_witness :
    bucketValue ProgressRow.caloriesConsumed
        (MemState.empty.runMealOps [MealOp.create ⟨1, 0, 300, 20, []⟩]).progress 1 0 =
      bucketValue ProgressRow.caloriesConsumed
        (DBState.empty.runMealOps [MealOp.create ⟨1, 0, 300, 20, []⟩]).progress 1 0 ∧
    bucketValue ProgressRow.proteinConsumed
        (MemState.empty.runMealOps [MealOp.create ⟨1, 0, 300, 20, []⟩]).progress 1 0 =
      bucketValue ProgressRow.proteinConsumed
        (DBState.empty.runMealOps [MealOp.create ⟨1, 0, 300, 20, []⟩]).progress 1 0 :=
  mem_db_agree_on_calories_protein [MealOp.create ⟨1, 0, 300, 20, []⟩]
    (by
      intro op hop
      rw [List.mem_singleton] at hop
      subst hop
      exact ⟨by norm_num, by norm_num⟩) 1 0

/-! ## Rowing DerivedMetricResolver
(`client/src/components/workout/add-workout-dialog.tsx`)

The split strings are modelled character-exactly.  `Option ℚ` is the
JavaScript number with `NaN` as `none`; `parseFloat` is modelled on the
grammar the dialog can produce and receive: an optional sign, digits, an
optional fraction, ignoring anything after the first invalid character
(exponents, infinities and leading whitespace do not occur here). -/

/-- The numeric value of a digit character, `none` for a non-digit. -/
def digitVal (c : Char) : Option ℕ :=
  if '0' ≤ c ∧ c ≤ '9' then some (c.toNat - 48) else none

/-- Consume leading digit characters, extending an accumulated value and
count, and return the unconsumed remainder. -/
def parseDigits : List Char → ℕ → ℕ → ℕ × ℕ × List Char
  | [], acc, cnt => (acc, cnt, [])
  | c :: cs, acc, cnt =>
    match digitVal c with
    | some d => parseDigits cs (acc * 10 + d) (cnt + 1)
    | none => (acc, cnt, c :: cs)

/-- The body of `parseFloat` after the sign: integer digits, then an optional
`.` and fraction digits; `none` (`NaN`) when no digit was consumed at all. -/
def parseUnsigned (l : List Char) (sgn : ℚ) : Option ℚ :=
  let r := parseDigits l 0 0
  let n1 := r.1
  let c1 := r.2.1
  match r.2.2 with
  | c :: t =>
    if c = '.' then
      let r2 := parseDigits t 0 0
      if c1 = 0 ∧ r2.2.1 = 0 then none
      else some (sgn * ((n1 : ℚ) + (r2.1 : ℚ) / 10 ^ r2.2.1))
    else if c1 = 0 then none else some (sgn * (n1 : ℚ))
  | [] => if c1 = 0 then none else some (sgn * (n1 : ℚ))

/-- JavaScript `parseFloat` on a character list. -/
def parseFloatChars : List Char → Option ℚ
  | [] => parseUnsigned [] 1
  | c :: t =>
    if c = '-' then parseUnsigned t (-1)
    else if c = '+' then parseUnsigned t 1
    else parseUnsigned (c :: t) 1

/-- JavaScript `String.prototype.split` with a one-character separator. -/
def splitOnChar (sep : Char) : List Char → List (List Char)
  | [] => [[]]
  | c :: cs =>
    if c = sep then [] :: splitOnChar sep cs
    else
      match splitOnChar sep cs with
      | [] => [[c]]
      | p :: ps => (c :: p) :: ps

/-- JavaScript addition where `NaN` absorbs. -/
def jsAdd : Option ℚ → Option ℚ → Option ℚ
  | some a, some b => some (a + b)
  | _, _ => none

/-- JavaScript multiplication by a constant where `NaN` absorbs. -/
def jsMulC : Option ℚ → ℚ → Option ℚ
  | some a, k => some (a * k)
  | none, _ => none

/-- `splitToSeconds`: `""` and malformed shapes (no single `:`) return `0`;
otherwise `minutes * 60 + seconds + milliseconds`, where any non-numeric part
parses to `NaN` and `NaN` propagates through the sum. -/
def splitToSeconds (splitTime : String) : Option ℚ :=
  if splitTime = "" then some 0
  else
    match splitOnChar ':' splitTime.data with
    | [p0, p1] =>
      let minutes := parseFloatChars p0
      match splitOnChar '.' p1 with
      | s0 :: rest =>
        let seconds := parseFloatChars s0
        let milliseconds : Option ℚ :=
          match rest with
          | [] => some 0
          | f :: _ => parseFloatChars ('0' :: '.' :: f)
        jsAdd (jsAdd (jsMulC minutes 60) seconds) milliseconds
      | [] => some 0
    | _ => some 0

/-- Little-endian base-10 digits, fuel-bounded (correct when `n ≤ fuel`). -/
def natDigitsLE : ℕ → ℕ → List ℕ
  | 0, _ => []
  | fuel + 1, n => if n = 0 then [] else n % 10 :: natDigitsLE fuel (n / 10)

/-- The character of one digit. -/
def digitChar (d : ℕ) : Char := Char.ofNat (48 + d)

/-- Most-significant-first digit list of a natural number (`[0]` for 0). -/
def digitsOf (n : ℕ) : List ℕ :=
  if n = 0 then [0] else (natDigitsLE n n).reverse

/-- JavaScript decimal printing of a nonnegative integer number. -/
def natToChars (n : ℕ) : List Char := (digitsOf n).map digitChar

/-- JavaScript `toFixed(2)` of a nonnegative number: round to hundredths
(ties up) and print with exactly two decimals. -/
def toFixed2Chars (q : ℚ) : List Char :=
  let c : ℕ := (jsFloor (q * 100 + 1/2)).toNat
  natToChars (c / 100) ++ '.' :: digitChar (c % 100 / 10) :: [digitChar (c % 100 % 10)]

/-- `secondsToSplit`: nonpositive (or `0`, which is falsy) gives `""`;
otherwise `minutes + ':' + (pad when below 10) + remaining.toFixed(2)`. -/
def secondsToSplit (seconds : ℚ) : String :=
  if seconds ≤ 0 then ""
  else
    let minutes : ℕ := (jsFloor (seconds / 60)).toNat
    let remaining : ℚ := seconds - 60 * (minutes : ℚ)
    String.mk (natToChars minutes ++ ':' ::
      ((if remaining < 10 then ['0'] else []) ++ toFixed2Chars remaining))

/-- `calculateSplitFromPace`: guard degenerate inputs to `""`, otherwise
format `durationMinutes * 60 / distanceMeters * 500` as a split string. -/
def calculateSplitFromPace (distanceMeters durationMinutes : ℚ) : String :=
  if distanceMeters ≤ 0 ∨ durationMinutes ≤ 0 then ""
  else secondsToSplit (durationMinutes * 60 / distanceMeters * 500)

/-- `calculateDistanceFromPace`: guard an empty split or nonpositive duration
to `0`; a `NaN` split-seconds value slips past the `splitSeconds <= 0` check
(false for `NaN`) and flows into `Math.round`, yielding `NaN`. -/
def calculateDistanceFromPace (splitTime : String) (durationMinutes : ℚ) : Option ℤ :=
  if splitTime = "" ∨ durationMinutes ≤ 0 then some 0
  else
    match splitToSeconds splitTime with
    | none => none
    | some splitSeconds =>
      if splitSeconds ≤ 0 then some 0
      else some (jsRound (durationMinutes * 60 / splitSeconds * 500))

/-- `C9` counterexample: the split `"a:b"` contains a colon, so it passes the
shape checks; its parts parse to `NaN`, `NaN` survives the
`splitSeconds <= 0` guard, and `calculateDistanceFromPace` returns `NaN`
(modelled `none`) — a `NaN` propagated into the result, not an
empty/zero/undefined outcome. -/
theorem distance_from_pace_nan_on_unparsable_colon_split :
    calculateDistanceFromPace "a:b" 10 = none := by
  rfl

/-- `C9` (amended): nonpositive duration, an empty split, or nonpositive
meters yield `0` or `""` and never throw, as the claim states — but an
unparsable split that does contain a single colon parses to `NaN`, which
slips past the nonpositivity guard and propagates into the returned
distance. -/
theorem degenerate_inputs_yield_zero_or_empty :
    (∀ (s : String) (du : ℚ), du ≤ 0 → calculateDistanceFromPace s du = some 0) ∧
    (∀ du : ℚ, calculateDistanceFromPace "" du = some 0) ∧
    (∀ dm du : ℚ, dm ≤ 0 → calculateSplitFromPace dm du = "") ∧
    (∀ dm du : ℚ, du ≤ 0 → calculateSplitFromPace dm du = "") ∧
    calculateDistanceFromPace "a:b" 10 = none := by
  refine ⟨?_, ?_, ?_, ?_, rfl⟩
  · intro s du h
    rw [calculateDistanceFromPace, if_pos (Or.inr h)]
  · intro du
    by_cases h : du ≤ 0
    · rw [calculateDistanceFromPace, if_pos (Or.inr h)]
    · rw [calculateDistanceFromPace, if_pos (Or.inl rfl)]
  · intro dm du h
    rw [calculateSplitFromPace, if_pos (Or.inl h)]
  · intro dm du h
    rw [calculateSplitFromPace, if_pos (Or.inr h)]

/-- `C9` witness: the amended degenerate-input behaviour at concrete
inputs. -/
theorem degenerate_inputs_witness :
    calculateDistanceFromPace "2:00" (-1) = some 0 ∧
    calculateDistanceFromPace "" 5 = some 0 ∧
    calculateSplitFromPace (-3) 10 = "" ∧
    calculateSplitFromPace 500 0 = "" ∧
    calculateDistanceFromPace "a:b" 10 = none :=
  ⟨degenerate_inputs_yield_zero_or_empty.1 "2:00" (-1) (by norm_num),
   degenerate_inputs_yield_zero_or_empty.2.1 5,
   degenerate_inputs_yield_zero_or_empty.2.2.1 (-3) 10 (by norm_num),
   degenerate_inputs_yield_zero_or_empty.2.2.2.1 500 0 (by norm_num),
   degenerate_inputs_yield_zero_or_empty.2.2.2.2⟩

/-! ### Digit characters -/

/-- A digit character parses back to its digit. -/
theorem digitVal_digitChar (d : ℕ) (h : d < 10) : digitVal (digitChar d) = some d := by
  interval_cases d <;> rfl

/-- Digit characters are not sign, separator or dot characters. -/
theorem digitChar_ne_marks (d : ℕ) (h : d < 10) :
    digitChar d ≠ '-' ∧ digitChar d ≠ '+' ∧ digitChar d ≠ ':' ∧ digitChar d ≠ '.' := by
  interval_cases d <;> exact ⟨by decide, by decide, by decide, by decide⟩

/-! ### `parseDigits` and `parseFloat` on digit strings -/

/-- `parseDigits` folds an all-digit block and stops at the remainder. -/
theorem parseDigits_digits (ds : List ℕ) (h : ∀ d ∈ ds, d < 10) (rest : List Char)
    (hrest : ∀ c t, rest = c :: t → digitVal c = none) :
    ∀ acc cnt, parseDigits (ds.map digitChar ++ rest) acc cnt =
      (ds.foldl (fun a d => a * 10 + d) acc, cnt + ds.length, rest) := by
  induction ds with
  | nil =>
    intro acc cnt
    cases rest with
    | nil => rfl
    | cons c t =>
      simp only [List.map_nil, List.nil_append, parseDigits, hrest c t rfl,
        List.length_nil, Nat.add_zero, List.foldl_nil]
  | cons d ds ih =>
    intro acc cnt
    have hd : d < 10 := h d (by simp)
    have hds : ∀ x ∈ ds, x < 10 := fun x hx => h x (by simp [hx])
    simp only [List.map_cons, List.cons_append, parseDigits, digitVal_digitChar d hd,
      List.append_eq, ih hds, List.foldl_cons, List.length_cons]
    have hcnt : cnt + 1 + ds.length = cnt + (ds.length + 1) := by omega
    rw [hcnt]

/-- `parseUnsigned` of a nonempty all-digit block. -/
theorem parseUnsigned_digits (ds : List ℕ) (h : ∀ d ∈ ds, d < 10) (hne : ds ≠ []) :
    parseUnsigned (ds.map digitChar) 1 =
      some ((ds.foldl (fun a d => a * 10 + d) 0 : ℕ) : ℚ) := by
  have hp := parseDigits_digits ds h [] (fun c t hct => by cases hct) 0 0
  rw [List.append_nil] at hp
  have hlen : ds.length ≠ 0 := fun h0 => hne (List.length_eq_zero.mp h0)
  simp only [parseUnsigned, hp]
  rw [if_neg (by simpa using hlen)]
  rw [one_mul]

/-- `parseFloat` of a nonempty all-digit block. -/
theorem parseFloatChars_digits (ds : List ℕ) (h : ∀ d ∈ ds, d < 10) (hne : ds ≠ []) :
    parseFloatChars (ds.map digitChar) =
      some ((ds.foldl (fun a d => a * 10 + d) 0 : ℕ) : ℚ) := by
  cases ds with
  | nil => exact absurd rfl hne
  | cons d ds' =>
    have hd : d < 10 := h d (by simp)
    obtain ⟨hminus, hplus, -, -⟩ := digitChar_ne_marks d hd
    rw [List.map_cons, parseFloatChars, if_neg hminus, if_neg hplus, ← List.map_cons]
    exact parseUnsigned_digits _ h (by simp)

/-- `parseFloat` of digits, a dot and fraction digits. -/
theorem parseFloatChars_digits_frac (ds fs : List ℕ) (hds : ∀ d ∈ ds, d < 10)
    (hfs : ∀ d ∈ fs, d < 10) (hne : ds ≠ []) :
    parseFloatChars (ds.map digitChar ++ '.' :: fs.map digitChar) =
      some ((ds.foldl (fun a d => a * 10 + d) 0 : ℕ) +
        ((fs.foldl (fun a d => a * 10 + d) 0 : ℕ) : ℚ) / 10 ^ fs.length) := by
  cases ds with
  | nil => exact absurd rfl hne
  | cons d ds' =>
    have hd : d < 10 := hds d (by simp)
    obtain ⟨hminus, hplus, -, -⟩ := digitChar_ne_marks d hd
    rw [List.map_cons, List.cons_append, parseFloatChars, if_neg hminus, if_neg hplus,
      ← List.cons_append, ← List.map_cons]
    have hp1 := parseDigits_digits (d :: ds') hds ('.' :: fs.map digitChar)
      (fun c t hct => by cases hct; rfl) 0 0
    have hp2 := parseDigits_digits fs hfs [] (fun c t hct => by cases hct) 0 0
    rw [List.append_nil] at hp2
    simp only [parseUnsigned, hp1, hp2, if_true]
    rw [if_neg (by simp)]
    rw [one_mul]
    simp

/-! ### `splitOnChar` -/

/-- Splitting a list free of the separator leaves it whole. -/
theorem splitOnChar_not_mem (sep : Char) (l : List Char) (h : sep ∉ l) :
    splitOnChar sep l = [l] := by
  induction l with
  | nil => rfl
  | cons c cs ih =>
    have hc : ¬(c = sep) := fun hc => h (by simp [hc])
    have hcs : sep ∉ cs := fun hm => h (by simp [hm])
    rw [splitOnChar, if_neg hc, ih hcs]

/-- Splitting around the first separator occurrence. -/
theorem splitOnChar_append_sep (sep : Char) (l1 l2 : List Char) (h : sep ∉ l1) :
    splitOnChar sep (l1 ++ sep :: l2) = l1 :: splitOnChar sep l2 := by
  induction l1 with
  | nil => simp [splitOnChar]
  | cons c t ih =>
    have hc : ¬(c = sep) := fun hc => h (by simp [hc])
    have ht : sep ∉ t := fun hm => h (by simp [hm])
    rw [List.cons_append, splitOnChar, if_neg hc, ih ht]

/-! ### Decimal rendering -/

/-- Digits produced by `natDigitsLE` are below 10. -/
theorem natDigitsLE_lt (fuel : ℕ) : ∀ n, ∀ d ∈ natDigitsLE fuel n, d < 10 := by
  induction fuel with
  | zero => intro n d hd; exact absurd hd (by simp [natDigitsLE])
  | succ fuel ih =>
    intro n d hd
    by_cases hn : n = 0
    · rw [natDigitsLE, if_pos hn] at hd
      exact absurd hd (by simp)
    · rw [natDigitsLE, if_neg hn] at hd
      rcases List.mem_cons.mp hd with h1 | h2
      · rw [h1]; exact Nat.mod_lt n (by norm_num)
      · exact ih (n / 10) d h2

/-- The most-significant-first fold of `natDigitsLE` recovers the number. -/
theorem natDigitsLE_foldl (fuel : ℕ) : ∀ n, n ≤ fuel →
    (natDigitsLE fuel n).reverse.foldl (fun a d => a * 10 + d) 0 = n := by
  induction fuel with
  | zero =>
    intro n hn
    interval_cases n
    rfl
  | succ fuel ih =>
    intro n hn
    by_cases hn0 : n = 0
    · rw [natDigitsLE, if_pos hn0, hn0]
      rfl
    · rw [natDigitsLE, if_neg hn0, List.reverse_cons, List.foldl_append]
      have hdiv : n / 10 ≤ fuel := by
        have := Nat.div_lt_self (Nat.pos_of_ne_zero hn0) (by norm_num : 1 < 10)
        omega
      rw [ih (n / 10) hdiv]
      show n / 10 * 10 + n % 10 = n
      omega

/-- Digits of `digitsOf` are below 10. -/
theorem digitsOf_lt (n : ℕ) : ∀ d ∈ digitsOf n, d < 10 := by
  intro d hd
  by_cases hn : n = 0
  · rw [digitsOf, if_pos hn] at hd
    simp at hd
    omega
  · rw [digitsOf, if_neg hn] at hd
    exact natDigitsLE_lt n n d (List.mem_reverse.mp hd)

/-- The digit fold of `digitsOf n` is `n`. -/
theorem digitsOf_foldl (n : ℕ) :
    (digitsOf n).foldl (fun a d => a * 10 + d) 0 = n := by
  by_cases hn : n = 0
  · rw [digitsOf, if_pos hn, hn]
    rfl
  · rw [digitsOf, if_neg hn]
    exact natDigitsLE_foldl n n le_rfl

/-- `digitsOf` is never empty. -/
theorem digitsOf_ne_nil (n : ℕ) : digitsOf n ≠ [] := by
  by_cases hn : n = 0
  · rw [digitsOf, if_pos hn]
    simp
  · rw [digitsOf, if_neg hn]
    obtain ⟨k, rfl⟩ := Nat.exists_eq_succ_of_ne_zero hn
    rw [natDigitsLE, if_neg hn]
    simp

/-- `natToChars` is never empty. -/
theorem natToChars_ne_nil (n : ℕ) : natToChars n ≠ [] := by
  rw [natToChars]
  simpa using digitsOf_ne_nil n

/-- No colon and no dot occur among rendered digit characters. -/
theorem natToChars_marks (n : ℕ) : ':' ∉ natToChars n ∧ '.' ∉ natToChars n := by
  constructor <;>
  · intro hmem
    rw [natToChars] at hmem
    obtain ⟨d, hd, hdc⟩ := List.mem_map.mp hmem
    have := digitChar_ne_marks d (digitsOf_lt n d hd)
    simp_all

/-- A string built from a nonempty character list is not the empty string. -/
theorem stringMk_ne_empty (l : List Char) (h : l ≠ []) : String.mk l ≠ "" :=
  fun he => h (congrArg String.data he)

/-- Parsing a rendered split string of the shape `secondsToSplit` produces —
minutes digits, colon, optional zero pad, seconds digits, dot, two fraction
digits — recovers `minutes * 60 + seconds + fraction / 100` exactly. -/
theorem splitToSeconds_render (m k x y : ℕ) (pad : List ℕ)
    (hpad : pad = [] ∨ pad = [0]) (hx : x < 10) (hy : y < 10) :
    splitToSeconds (String.mk (natToChars m ++ ':' ::
        (pad.map digitChar ++ (natToChars k ++ '.' :: digitChar x :: [digitChar y])))) =
      some ((m : ℚ) * 60 + (k : ℚ) + ((x * 10 + y : ℕ) : ℚ) / 100) := by
  have hpad10 : ∀ d ∈ pad, d < 10 := by
    rcases hpad with rfl | rfl
    · simp
    · intro d hd
      simp at hd
      omega
  have hcolon : ':' ∉ pad.map digitChar ++ (natToChars k ++ '.' :: digitChar x :: [digitChar y]) := by
    intro hmem
    rcases List.mem_append.mp hmem with h1 | h2
    · obtain ⟨d, hd, hdc⟩ := List.mem_map.mp h1
      exact (digitChar_ne_marks d (hpad10 d hd)).2.2.1 hdc
    · rcases List.mem_append.mp h2 with h3 | h4
      · exact (natToChars_marks k).1 h3
      · rcases List.mem_cons.mp h4 with h5 | h6
        · exact absurd h5 (by decide)
        · rcases List.mem_cons.mp h6 with h7 | h8
          · exact (digitChar_ne_marks x hx).2.2.1 h7.symm
          · rcases List.mem_cons.mp h8 with h9 | h10
            · exact (digitChar_ne_marks y hy).2.2.1 h9.symm
            · exact absurd h10 (by simp)
  have hdot : '.' ∉ pad.map digitChar ++ natToChars k := by
    intro hmem
    rcases List.mem_append.mp hmem with h1 | h2
    · obtain ⟨d, hd, hdc⟩ := List.mem_map.mp h1
      exact (digitChar_ne_marks d (hpad10 d hd)).2.2.2 hdc
    · exact (natToChars_marks k).2 h2
  have hdot2 : '.' ∉ [digitChar x, digitChar y] := by
    intro hmem
    rcases List.mem_cons.mp hmem with h1 | h2
    · exact (digitChar_ne_marks x hx).2.2.2 h1.symm
    · rcases List.mem_cons.mp h2 with h3 | h4
      · exact (digitChar_ne_marks y hy).2.2.2 h3.symm
      · exact absurd h4 (by simp)
  have hne : natToChars m ++ ':' ::
      (pad.map digitChar ++ (natToChars k ++ '.' :: digitChar x :: [digitChar y])) ≠ [] := by
    simp
  rw [splitToSeconds, if_neg (stringMk_ne_empty _ hne)]
  have hsplit1 : splitOnChar ':' (natToChars m ++ ':' ::
      (pad.map digitChar ++ (natToChars k ++ '.' :: digitChar x :: [digitChar y]))) =
      [natToChars m,
        pad.map digitChar ++ (natToChars k ++ '.' :: digitChar x :: [digitChar y])] := by
    rw [splitOnChar_append_sep ':' _ _ (natToChars_marks m).1,
      splitOnChar_not_mem ':' _ hcolon]
  have hdata : (String.mk (natToChars m ++ ':' ::
      (pad.map digitChar ++ (natToChars k ++ '.' :: digitChar x :: [digitChar y])))).data =
      natToChars m ++ ':' ::
        (pad.map digitChar ++ (natToChars k ++ '.' :: digitChar x :: [digitChar y])) := rfl
  rw [hdata, hsplit1]
  dsimp only
  have hassoc : pad.map digitChar ++ (natToChars k ++ '.' :: digitChar x :: [digitChar y]) =
      (pad.map digitChar ++ natToChars k) ++ '.' :: digitChar x :: [digitChar y] := by
    rw [List.append_assoc]
  have hsplit2 : splitOnChar '.'
      (pad.map digitChar ++ (natToChars k ++ '.' :: digitChar x :: [digitChar y])) =
      [pad.map digitChar ++ natToChars k, [digitChar x, digitChar y]] := by
    rw [hassoc, splitOnChar_append_sep '.' _ _ hdot, splitOnChar_not_mem '.' _ hdot2]
  have hmins : parseFloatChars (natToChars m) = some ((m : ℕ) : ℚ) := by
    have h1 := parseFloatChars_digits (digitsOf m) (digitsOf_lt m) (digitsOf_ne_nil m)
    rw [digitsOf_foldl] at h1
    simpa [natToChars] using h1
  have hsecs : parseFloatChars (pad.map digitChar ++ natToChars k) = some ((k : ℕ) : ℚ) := by
    have hds : ∀ d ∈ pad ++ digitsOf k, d < 10 := by
      intro d hd
      rcases List.mem_append.mp hd with h1 | h2
      · exact hpad10 d h1
      · exact digitsOf_lt k d h2
    have hne2 : pad ++ digitsOf k ≠ [] := by
      intro h0
      exact digitsOf_ne_nil k (List.append_eq_nil.mp h0).2
    have h1 := parseFloatChars_digits (pad ++ digitsOf k) hds hne2
    rw [List.foldl_append] at h1
    have hfold : List.foldl (fun a d => a * 10 + d) 0 pad = 0 := by
      rcases hpad with rfl | rfl <;> rfl
    rw [hfold, digitsOf_foldl] at h1
    simpa [natToChars] using h1
  have hms : parseFloatChars ('0' :: '.' :: [digitChar x, digitChar y]) =
      some (((0 : ℕ) : ℚ) + ((x * 10 + y : ℕ) : ℚ) / 100) := by
    have h00 : ('0' : Char) = digitChar 0 := by decide
    have hlist : ('0' :: '.' :: [digitChar x, digitChar y]) =
        (([0] : List ℕ).map digitChar ++ '.' :: ([x, y].map digitChar)) := by
      rw [h00]
      rfl
    rw [hlist]
    have h1 := parseFloatChars_digits_frac [0] [x, y] (by simp)
      (by
        intro d hd
        rcases List.mem_cons.mp hd with rfl | h2
        · exact hx
        · rcases List.mem_cons.mp h2 with rfl | h3
          · exact hy
          · exact absurd h3 (by simp)) (by simp)
    have hfold2 : List.foldl (fun a d => a * 10 + d) 0 [x, y] = x * 10 + y := by
      simp [List.foldl]
    rw [hfold2] at h1
    simpa using h1
  rw [hsplit2]
  dsimp only
  rw [hmins, hsecs, hms]
  simp only [jsMulC, jsAdd, Option.some.injEq]
  push_cast
  ring

/-- Parsing back a rendered positive split is exactly centisecond
quantization: minutes stay intact and the remainder comes back as the
`toFixed(2)`-rounded number of centiseconds over 100. -/
theorem splitToSeconds_secondsToSplit (q : ℚ) (hq : 0 < q) :
    splitToSeconds (secondsToSplit q) =
      some (((jsFloor (q / 60)).toNat : ℚ) * 60 +
        ((jsFloor ((q - 60 * ((jsFloor (q / 60)).toNat : ℚ)) * 100 + 1/2)).toNat : ℚ) / 100) := by
  set m := (jsFloor (q / 60)).toNat with hm
  set c := (jsFloor ((q - 60 * (m : ℚ)) * 100 + 1/2)).toNat with hc
  have hx : c % 100 / 10 < 10 := by omega
  have hy : c % 100 % 10 < 10 := by omega
  have hxy : (c % 100 / 10) * 10 + c % 100 % 10 = c % 100 := by omega
  have hcq : ((c / 100 : ℕ) : ℚ) + ((c % 100 : ℕ) : ℚ) / 100 = (c : ℚ) / 100 := by
    have h2 : (c : ℚ) = ((100 * (c / 100) + c % 100 : ℕ) : ℚ) := by
      rw [Nat.div_add_mod]
    rw [h2]
    push_cast
    ring
  by_cases hlt : q - 60 * (m : ℚ) < 10
  · have hrender : secondsToSplit q = String.mk (natToChars m ++ ':' ::
        ((([0] : List ℕ).map digitChar) ++
          (natToChars (c / 100) ++ '.' :: digitChar (c % 100 / 10) :: [digitChar (c % 100 % 10)]))) := by
      rw [secondsToSplit, if_neg (not_le.mpr hq)]
      show String.mk (natToChars m ++ ':' ::
          ((if q - 60 * (m : ℚ) < 10 then ['0'] else []) ++ toFixed2Chars (q - 60 * (m : ℚ)))) = _
      rw [if_pos hlt, toFixed2Chars]
      rfl
    rw [hrender, splitToSeconds_render m (c / 100) (c % 100 / 10) (c % 100 % 10) [0]
      (Or.inr rfl) hx hy]
    rw [hxy]
    rw [Option.some.injEq, add_assoc, hcq]
  · have hrender : secondsToSplit q = String.mk (natToChars m ++ ':' ::
        ((([] : List ℕ).map digitChar) ++
          (natToChars (c / 100) ++ '.' :: digitChar (c % 100 / 10) :: [digitChar (c % 100 % 10)]))) := by
      rw [secondsToSplit, if_neg (not_le.mpr hq)]
      show String.mk (natToChars m ++ ':' ::
          ((if q - 60 * (m : ℚ) < 10 then ['0'] else []) ++ toFixed2Chars (q - 60 * (m : ℚ)))) = _
      rw [if_neg hlt, toFixed2Chars]
      rfl
    rw [hrender, splitToSeconds_render m (c / 100) (c % 100 / 10) (c % 100 % 10) []
      (Or.inl rfl) hx hy]
    rw [hxy]
    rw [Option.some.injEq, add_assoc, hcq]

/-- A positive number renders to a nonempty split string. -/
theorem secondsToSplit_ne_empty (q : ℚ) (hq : 0 < q) : secondsToSplit q ≠ "" := by
  rw [secondsToSplit, if_neg (not_le.mpr hq)]
  refine stringMk_ne_empty _ ?_
  simp

/-- `C5` counterexample: duration 1 minute and 7000 m give the split
`"0:04.29"`, whose two-decimal quantization converts back to 6993 m: the
round-trip error is 7 > 1. -/
theorem rowing_roundtrip_error_exceeds_one :
    calculateDistanceFromPace (calculateSplitFromPace 7000 1) 1 = some 6993 ∧
      ¬|(6993 : ℤ) - 7000| ≤ 1 := by
  constructor
  · have hpace : (1 : ℚ) * 60 / 7000 * 500 = 30 / 7 := by norm_num
    have hsp : calculateSplitFromPace 7000 1 = secondsToSplit (30 / 7) := by
      rw [calculateSplitFromPace, if_neg (by norm_num), hpace]
    have hquant := splitToSeconds_secondsToSplit (30 / 7) (by norm_num)
    simp only [jsFloor_eq] at hquant
    norm_num at hquant
    simp only [show Int.toNat 429 = 429 from by decide] at hquant
    rw [hsp, calculateDistanceFromPace,
      if_neg (by
        push_neg
        exact ⟨secondsToSplit_ne_empty (30 / 7) (by norm_num), by norm_num⟩),
      hquant]
    dsimp only
    rw [if_neg (by norm_num), Option.some.injEq, jsRound, jsFloor_eq]
    norm_num
  · decide

/-- `C5` (amended): the split-then-distance round trip is exact — in
particular within 1 m — whenever the computed pace is representable at
two-decimal (centisecond) precision; in general the two-decimal formatting
quantizes the split and the round-trip error can exceed 1 m. -/
theorem rowing_roundtrip_exact_on_centisecond_splits (M : ℕ) (D : ℚ)
    (hM : 0 < M) (hD : 0 < D)
    (hrep : ∃ c : ℕ, D * 60 / (M : ℚ) * 500 = (c : ℚ) / 100) :
    calculateDistanceFromPace (calculateSplitFromPace (M : ℚ) D) D = some (M : ℤ) := by
  obtain ⟨c, hcrep⟩ := hrep
  have hMQ : (0 : ℚ) < (M : ℚ) := by exact_mod_cast hM
  have hMne : (M : ℚ) ≠ 0 := ne_of_gt hMQ
  have hpace_pos : 0 < D * 60 / (M : ℚ) * 500 := by positivity
  have hsp : calculateSplitFromPace (M : ℚ) D = secondsToSplit (D * 60 / (M : ℚ) * 500) := by
    rw [calculateSplitFromPace, if_neg]
    push_neg
    exact ⟨hMQ, hD⟩
  set pace := D * 60 / (M : ℚ) * 500 with hpacedef
  have hpc : pace = (c : ℚ) / 100 := hcrep
  set m := (jsFloor (pace / 60)).toNat with hm
  have hfl0 : (0 : ℤ) ≤ ⌊pace / 60⌋ := Int.floor_nonneg.mpr (by positivity)
  have hmcast : ((m : ℕ) : ℚ) = ((⌊pace / 60⌋ : ℤ) : ℚ) := by
    rw [hm, jsFloor_eq]
    exact_mod_cast Int.toNat_of_nonneg hfl0
  have hrem_nonneg : 0 ≤ pace - 60 * (m : ℚ) := by
    rw [hmcast]
    have hfle : ((⌊pace / 60⌋ : ℤ) : ℚ) ≤ pace / 60 := Int.floor_le _
    nlinarith
  have hrem_cent : (pace - 60 * (m : ℚ)) * 100 = (c : ℚ) - 6000 * (m : ℚ) := by
    rw [hpc]
    ring
  have hK0 : (0 : ℚ) ≤ (c : ℚ) - 6000 * (m : ℚ) := by
    rw [← hrem_cent]
    nlinarith
  have hm6000 : 6000 * m ≤ c := by
    have hq0 : ((6000 * m : ℕ) : ℚ) ≤ (c : ℚ) := by
      push_cast
      linarith
    exact_mod_cast hq0
  have hfloor_cent : jsFloor ((pace - 60 * (m : ℚ)) * 100 + 1/2) = ((c - 6000 * m : ℕ) : ℤ) := by
    rw [jsFloor_eq, hrem_cent]
    have hval : (c : ℚ) - 6000 * (m : ℚ) = (((c - 6000 * m : ℕ) : ℤ) : ℚ) := by
      push_cast [hm6000]
      ring
    rw [hval, Int.floor_int_add]
    norm_num
  have hquant := splitToSeconds_secondsToSplit pace hpace_pos
  rw [← hm, hfloor_cent, Int.toNat_natCast] at hquant
  have hvq : ((m : ℚ)) * 60 + ((c - 6000 * m : ℕ) : ℚ) / 100 = pace := by
    have hcc : ((c - 6000 * m : ℕ) : ℚ) = (c : ℚ) - 6000 * (m : ℚ) := by
      push_cast [hm6000]
      ring
    rw [hcc, hpc]
    ring
  rw [hvq] at hquant
  rw [hsp, calculateDistanceFromPace,
    if_neg (by
      push_neg
      exact ⟨secondsToSplit_ne_empty pace hpace_pos, hD⟩),
    hquant]
  dsimp only
  rw [if_neg (not_le.mpr hpace_pos)]
  have hDne : D ≠ 0 := ne_of_gt hD
  have harg : D * 60 / pace * 500 = (M : ℚ) := by
    rw [hpacedef]
    field_simp
    ring
  rw [harg, Option.some.injEq, jsRound, jsFloor_eq]
  have hMint : (M : ℚ) + 1/2 = ((M : ℤ) : ℚ) + 1/2 := by
    push_cast
    ring
  rw [hMint, Int.floor_int_add]
  norm_num

/-- `C5` witness: the exact round trip at the spec's rowing scenario —
duration 25.5 min and 5000 m, whose pace 153 s is centisecond
representable. -/
theorem rowing_roundtrip_witness :
    calculateDistanceFromPace (calculateSplitFromPace ((5000 : ℕ) : ℚ) (51/2)) (51/2) =
      some ((5000 : ℕ) : ℤ) :=
  rowing_roundtrip_exact_on_centisecond_splits 5000 (51/2) (by norm_num) (by norm_num)
    ⟨15300, by norm_num⟩

/-- `C6`: for every positive distance and duration, `calculateSplitFromPace`
computes `splitSeconds = durationMinutes * 60 / distanceMeters * 500` and
formats it with `secondsToSplit` (minutes, colon, two-decimal seconds); in
particular for duration 25.5 minutes and 5000 meters it returns `"2:33.00"`. -/
theorem split_from_pace_formula_and_scenario :
    (∀ dm du : ℚ, 0 < dm → 0 < du →
      calculateSplitFromPace dm du = secondsToSplit (du * 60 / dm * 500)) ∧
      calculateSplitFromPace 5000 (51 / 2) = "2:33.00" := by
  constructor
  · intro dm du hdm hdu
    rw [calculateSplitFromPace, if_neg (by push_neg; exact ⟨hdm, hdu⟩)]
  · have h1 : calculateSplitFromPace 5000 (51 / 2) = secondsToSplit 153 := by
      rw [calculateSplitFromPace, if_neg (by norm_num)]
      norm_num
    have hfl : jsFloor ((153 : ℚ) / 60) = 2 := by
      rw [jsFloor_eq]
      norm_num
    rw [h1, secondsToSplit, if_neg (by norm_num)]
    rw [hfl]
    simp only [show Int.toNat 2 = 2 from rfl]
    have hrem : (153 : ℚ) - 60 * ((2 : ℕ) : ℚ) = 33 := by norm_num
    rw [hrem, if_neg (by norm_num : ¬ (33 : ℚ) < 10), toFixed2Chars]
    have hc : jsFloor ((33 : ℚ) * 100 + 1 / 2) = 3300 := by
      rw [jsFloor_eq]
      norm_num
    rw [hc]
    simp only [show Int.toNat 3300 = 3300 from rfl]
    decide

/-- `C6` witness: the formula half of the claim instantiated at the spec's
rowing scenario inputs, with both positivity hypotheses discharged. -/
theorem split_from_pace_formula_witness :
    (0 : ℚ) < 5000 ∧ (0 : ℚ) < 51 / 2 ∧
      calculateSplitFromPace 5000 (51 / 2) =
        secondsToSplit ((51 / 2) * 60 / 5000 * 500) :=
  ⟨by norm_num, by norm_num,
    split_from_pace_formula_and_scenario.1 5000 (51 / 2) (by norm_num) (by norm_num)⟩

end Foodtopia
